import Mathlib

/-!
Verification of the `asefile` chunk decoders (`src/palette.rs`, `src/slice.rs`)
against their natural-language specification.

Byte buffers are modelled as `List Nat` (each element one byte, `< 256` where a
claim needs it); machine integers are `Nat`/`Int` with explicit `% 2 ^ 32`
where the Rust `u32` arithmetic can wrap.  Fallible code returns `Except`.
A reading step is a function `List Nat → Except AsepriteParseError (α × List Nat)`
returning the parsed value and the unread suffix of the buffer; `pbind`
sequences two steps the way Rust's `?` operator threads the reader.
The byte reader (`AseReader`) is not part of the provided sources, so it is
modelled from the spec; everything else is translated from the Rust source.
-/

/-- Mirrors `AsepriteParseError` as used by the two decoders: reader failures
(truncated input, bad UTF-8) and `InvalidInput` carrying a formatted message. -/
inductive AsepriteParseError where
  | endOfInput : AsepriteParseError
  | utf8Error : AsepriteParseError
  | invalidInput : String → AsepriteParseError
deriving DecidableEq, Repr

/-- One reading step: parsed value plus the unread suffix of the buffer. -/
abbrev ReadM (α : Type _) :=
  List Nat → Except AsepriteParseError (α × List Nat)

/-- Sequencing of reading steps: run `p`, then `q` on its result and the
remaining bytes (Rust's `?` operator threading the reader cursor). -/
def pbind {α β : Type _} (p : ReadM α) (q : α → ReadM β) : ReadM β := fun bs =>
  match p bs with
  | .error e => .error e
  | .ok (a, r) => q a r

/-- A step that consumes nothing and returns `a`. -/
def pok {α : Type _} (a : α) : ReadM α := fun bs => .ok (a, bs)

/-- A step that fails with error `e`. -/
def perr {α : Type _} (e : AsepriteParseError) : ReadM α := fun _ => .error e

/-- Conditionally run a reading step, returning `some`/`none` (the Rust
`if cond { Some(X::read(reader)?) } else { None }` pattern). -/
def preadOpt {α : Type _} (c : Prop) [Decidable c] (p : ReadM α) :
    ReadM (Option α) :=
  if c then pbind p (fun v => pok (some v)) else pok none

/-- Modelled from the spec: `byte() -> u8`, failing with an end-of-input
condition when the buffer is exhausted. -/
def readByte : ReadM Nat
  | [] => .error .endOfInput
  | b :: rest => .ok (b, rest)

/-- Modelled from the spec: `word() -> u16`, little-endian. -/
def readWord : ReadM Nat :=
  pbind readByte fun b0 =>
    pbind readByte fun b1 =>
      pok (b0 + 256 * b1)

/-- Modelled from the spec: `dword() -> u32`, little-endian. -/
def readDword : ReadM Nat :=
  pbind readByte fun b0 =>
    pbind readByte fun b1 =>
      pbind readByte fun b2 =>
        pbind readByte fun b3 =>
          pok (b0 + 256 * b1 + 65536 * b2 + 16777216 * b3)

/-- Modelled from the spec: `long() -> i32`, little-endian two's complement. -/
def readLong : ReadM Int :=
  pbind readDword fun raw =>
    if raw < 2 ^ 31 then pok ((raw : Int)) else pok ((raw : Int) - 2 ^ 32)

/-- Modelled from the spec: `skip_reserved(n)` advances the cursor by `n`
bytes without interpretation, failing if fewer than `n` bytes remain. -/
def skipReserved (n : Nat) : ReadM Unit := fun bs =>
  if n ≤ bs.length then .ok ((), bs.drop n) else .error .endOfInput

/-- Reads exactly `n` raw bytes (used by the string primitive). -/
def readBytes (n : Nat) : ReadM (List Nat) := fun bs =>
  if n ≤ bs.length then .ok (bs.take n, bs.drop n) else .error .endOfInput

/-- `true` iff `c` is a UTF-8 continuation byte (`0x80..0xBF`). -/
def contByte (c : Nat) : Bool := 128 ≤ c && c ≤ 191

/-- Modelled from the spec: UTF-8 validity of a byte sequence (the reader's
`string()` validates the bytes as UTF-8).  Standard rules: no overlong forms,
no surrogates, maximum scalar value `U+10FFFF`. -/
def validUtf8 : List Nat → Bool
  | [] => true
  | b :: rest =>
    if b ≤ 127 then validUtf8 rest
    else if 194 ≤ b && b ≤ 223 then
      match rest with
      | c1 :: r => contByte c1 && validUtf8 r
      | [] => false
    else if b = 224 then
      match rest with
      | c1 :: c2 :: r => (160 ≤ c1 && c1 ≤ 191) && contByte c2 && validUtf8 r
      | _ => false
    else if (225 ≤ b && b ≤ 236) || b = 238 || b = 239 then
      match rest with
      | c1 :: c2 :: r => contByte c1 && contByte c2 && validUtf8 r
      | _ => false
    else if b = 237 then
      match rest with
      | c1 :: c2 :: r => (128 ≤ c1 && c1 ≤ 159) && contByte c2 && validUtf8 r
      | _ => false
    else if b = 240 then
      match rest with
      | c1 :: c2 :: c3 :: r =>
        (144 ≤ c1 && c1 ≤ 191) && contByte c2 && contByte c3 && validUtf8 r
      | _ => false
    else if 241 ≤ b && b ≤ 243 then
      match rest with
      | c1 :: c2 :: c3 :: r =>
        contByte c1 && contByte c2 && contByte c3 && validUtf8 r
      | _ => false
    else if b = 244 then
      match rest with
      | c1 :: c2 :: c3 :: r =>
        (128 ≤ c1 && c1 ≤ 143) && contByte c2 && contByte c3 && validUtf8 r
      | _ => false
    else false

/-- Modelled from the spec: `string()` reads a 16-bit length prefix, then that
many bytes, validated as UTF-8.  The decoded string is represented by its
UTF-8 byte sequence (a Rust `String` is exactly its UTF-8 bytes). -/
def readString : ReadM (List Nat) :=
  pbind readWord fun n =>
    pbind (readBytes n) fun s =>
      if validUtf8 s then pok s else perr .utf8Error

/-- A single entry in a `ColorPalette` (`ColorPaletteEntry` in `palette.rs`);
`name` is the optional label's UTF-8 bytes. -/
structure ColorPaletteEntry where
  id : Nat
  rgba8 : List Nat
  name : Option (List Nat)
deriving DecidableEq, Repr

/-- The color palette (`ColorPalette` in `palette.rs`): an integer-keyed map
of entries, modelled as an association list with insert-replaces semantics. -/
structure ColorPalette where
  entries : List (Nat × ColorPaletteEntry)
deriving DecidableEq, Repr

/-- Map insertion for the palette's `IntMap`: replaces the value when the key
is already present, otherwise adds a new binding. -/
def insertEntry (m : List (Nat × ColorPaletteEntry)) (k : Nat)
    (v : ColorPaletteEntry) : List (Nat × ColorPaletteEntry) :=
  if m.any (fun p => p.1 = k) then
    m.map (fun p => if p.1 = k then (k, v) else p)
  else m ++ [(k, v)]

/-- `ColorPalette::num_colors`: `self.entries.len() as u32`. -/
def ColorPalette.num_colors (p : ColorPalette) : Nat :=
  p.entries.length % 2 ^ 32

/-- `ColorPalette::color`: look up the entry at the given index. -/
def ColorPalette.color (p : ColorPalette) (index : Nat) :
    Option ColorPaletteEntry :=
  (p.entries.find? (fun q => q.1 = index)).map Prod.snd

/-- Modelled from the spec: an indexed pixel (from the out-of-scope pixel
module) wraps a palette index value. -/
structure Indexed where
  value : Nat
deriving DecidableEq, Repr

/-- The `format!` message of `validate_indexed_pixels`'s error. -/
def indexOutOfRangeMsg (v maxc : Nat) : String :=
  "Index out of range: " ++ toString v ++ " (max: " ++ toString maxc ++ ")"

/-- `ColorPalette::validate_indexed_pixels`: every pixel's value must have a
palette entry; the first violation aborts with an `InvalidInput` error.  A
pure function: it only reads the palette and the pixels. -/
def ColorPalette.validate_indexed_pixels (p : ColorPalette) :
    List Indexed → Except AsepriteParseError Unit
  | [] => .ok ()
  | px :: rest =>
    match p.color px.value with
    | some _ => p.validate_indexed_pixels rest
    | none =>
      .error (.invalidInput (indexOutOfRangeMsg px.value p.num_colors))

/-- The `format!` message of the palette range check's error. -/
def badPaletteIndicesMsg (first last : Nat) : String :=
  "Bad palette color indices: first=" ++ toString first ++ " last=" ++
    toString last

/-- One iteration of the palette entry loop in `parse_chunk` (`palette.rs`
lines 106-126): flags word, four channel bytes, optional name. -/
def readPaletteEntry (id : Nat) : ReadM ColorPaletteEntry :=
  pbind readWord fun flags =>
    pbind readByte fun red =>
      pbind readByte fun green =>
        pbind readByte fun blue =>
          pbind readByte fun alpha =>
            pbind (preadOpt (flags &&& 1 = 1) readString) fun name =>
              pok ⟨id, [red, green, blue, alpha], name⟩

/-- The palette entry loop: `n` entries remain, `i` is the current local
offset (`id` in the Rust loop), entries are inserted at key
`(i + first) % 2 ^ 32` (the Rust `id + first_color_index` in `u32`). -/
def readPaletteEntries (first : Nat) (acc : List (Nat × ColorPaletteEntry))
    (i : Nat) : Nat → ReadM (List (Nat × ColorPaletteEntry))
  | 0 => pok acc
  | n + 1 =>
    pbind (readPaletteEntry ((i + first) % 2 ^ 32)) fun e =>
      readPaletteEntries first (insertEntry acc ((i + first) % 2 ^ 32) e)
        (i + 1) n

/-- `palette.rs` `parse_chunk`, with the reader's final cursor exposed as the
unread suffix of the buffer. -/
def paletteParseChunkR : ReadM ColorPalette :=
  pbind readDword fun _num_total_entries =>
    pbind readDword fun first_color_index =>
      pbind readDword fun last_color_index =>
        pbind (skipReserved 8) fun _ =>
          if last_color_index < first_color_index then
            perr (.invalidInput
              (badPaletteIndicesMsg first_color_index last_color_index))
          else
            let count := (last_color_index - first_color_index + 1) % 2 ^ 32
            pbind (readPaletteEntries first_color_index [] 0 count)
              fun entries => pok ⟨entries⟩

/-- `palette.rs` `parse_chunk`: the public result drops the cursor. -/
def paletteParseChunk (data : List Nat) :
    Except AsepriteParseError ColorPalette :=
  (paletteParseChunkR data).map Prod.fst

/-- The palette header reads (`dword`, `dword`, `dword`, 8 reserved bytes):
`(first_color_index, last_color_index, rest)` when they all succeed. -/
def paletteHeader (data : List Nat) : Option (Nat × Nat × List Nat) :=
  match (pbind readDword fun _num_total_entries =>
      pbind readDword fun first_color_index =>
        pbind readDword fun last_color_index =>
          pbind (skipReserved 8) fun _ =>
            pok (first_color_index, last_color_index)) data with
  | .ok ((first, last), rest) => some (first, last, rest)
  | .error _ => none

/-- `UserData` from the out-of-scope user-data module; the slice decoder only
ever produces `none`, so its fields are irrelevant here. -/
structure UserData where
deriving DecidableEq, Repr

/-- `Slice9` (`slice.rs`): nine-slice scaling metadata. -/
structure Slice9 where
  center_x : Int
  center_y : Int
  center_width : Nat
  center_height : Nat
deriving DecidableEq, Repr

/-- `Slice9::read`. -/
def Slice9.read : ReadM Slice9 :=
  pbind readLong fun center_x =>
    pbind readLong fun center_y =>
      pbind readDword fun center_width =>
        pbind readDword fun center_height =>
          pok ⟨center_x, center_y, center_width, center_height⟩

/-- `SliceOrigin` (`slice.rs`): the slice's position within the sprite. -/
structure SliceOrigin where
  x : Int
  y : Int
deriving DecidableEq, Repr

/-- `SliceOrigin::read`. -/
def SliceOrigin.read : ReadM SliceOrigin :=
  pbind readLong fun x =>
    pbind readLong fun y =>
      pok ⟨x, y⟩

/-- `SliceSize` (`slice.rs`): the size of a slice in pixels. -/
structure SliceSize where
  width : Nat
  height : Nat
deriving DecidableEq, Repr

/-- `SliceSize::read`. -/
def SliceSize.read : ReadM SliceSize :=
  pbind readDword fun width =>
    pbind readDword fun height =>
      pok ⟨width, height⟩

/-- `SlicePivot` (`slice.rs`): pivot position relative to the slice origin. -/
structure SlicePivot where
  x : Int
  y : Int
deriving DecidableEq, Repr

/-- `SlicePivot::read`. -/
def SlicePivot.read : ReadM SlicePivot :=
  pbind readLong fun x =>
    pbind readLong fun y =>
      pok ⟨x, y⟩

/-- `SliceKey` (`slice.rs`): position and shape of a slice from a frame on. -/
structure SliceKey where
  from_frame : Nat
  origin : SliceOrigin
  size : SliceSize
  slice9 : Option Slice9
  pivot : Option SlicePivot
deriving DecidableEq, Repr

/-- `SliceKey::read`: the optional sub-records are gated by the chunk-level
`flags` (`flags & 1` for `slice9`, `flags & 2` for `pivot`). -/
def SliceKey.read (flags : Nat) : ReadM SliceKey :=
  pbind readDword fun from_frame =>
    pbind SliceOrigin.read fun origin =>
      pbind SliceSize.read fun size =>
        pbind (preadOpt (flags &&& 1 ≠ 0) Slice9.read) fun slice9 =>
          pbind (preadOpt (flags &&& 2 ≠ 0) SlicePivot.read) fun pivot =>
            pok ⟨from_frame, origin, size, slice9, pivot⟩

/-- `Slice` (`slice.rs`): a named region with keyed geometry; `user_data` is
always `none` straight out of the decoder. -/
structure Slice where
  name : List Nat
  keys : List SliceKey
  user_data : Option UserData
deriving DecidableEq, Repr

/-- The slice key loop of `parse_chunk` (`slice.rs` lines 138-140): reads
`n` keys in order, aborting on the first failure (`collect` on `Result`s). -/
def readSliceKeys (flags : Nat) : Nat → ReadM (List SliceKey)
  | 0 => pok []
  | n + 1 =>
    pbind (SliceKey.read flags) fun k =>
      pbind (readSliceKeys flags n) fun ks =>
        pok (k :: ks)

/-- `slice.rs` `parse_chunk`, with the reader's final cursor exposed as the
unread suffix of the buffer. -/
def sliceParseChunkR : ReadM Slice :=
  pbind readDword fun num_slice_keys =>
    pbind readDword fun flags =>
      pbind readDword fun _reserved =>
        pbind readString fun name =>
          pbind (readSliceKeys flags num_slice_keys) fun slice_keys =>
            pok ⟨name, slice_keys, none⟩

/-- `slice.rs` `parse_chunk`: the public result drops the cursor. -/
def sliceParseChunk (data : List Nat) : Except AsepriteParseError Slice :=
  (sliceParseChunkR data).map Prod.fst

/-- The slice header reads (`dword` count, `dword` flags, `dword` reserved,
string name): `(num_slice_keys, flags, name, rest)` when they all succeed. -/
def sliceHeader (data : List Nat) : Option (Nat × Nat × List Nat × List Nat) :=
  match (pbind readDword fun num_slice_keys =>
      pbind readDword fun flags =>
        pbind readDword fun _reserved =>
          pbind readString fun name =>
            pok (num_slice_keys, flags, name)) data with
  | .ok ((num, flags, name), rest) => some (num, flags, name, rest)
  | .error _ => none

/-! ### Encoders following the spec's section-6 byte layout (for the
round-trip property), and the well-formedness facts a successful decode
guarantees about its result. -/

/-- Encode a `u16` little-endian (section 6 layout). -/
def encodeWord (n : Nat) : List Nat := [n % 256, n / 256 % 256]

/-- Encode a `u32` little-endian (section 6 layout). -/
def encodeDword (n : Nat) : List Nat :=
  [n % 256, n / 256 % 256, n / 65536 % 256, n / 16777216 % 256]

/-- Encode an `i32` little-endian two's complement (section 6 layout). -/
def encodeLong (z : Int) : List Nat := encodeDword ((z % 2 ^ 32).toNat)

/-- Encode a string as a `u16` length prefix followed by its UTF-8 bytes. -/
def encodeString (s : List Nat) : List Nat := encodeWord s.length ++ s

/-- Encode one palette entry: flags word (bit 0 iff a name is present), the
four channel bytes, then the optional length-prefixed name. -/
def encodePaletteEntry (e : ColorPaletteEntry) : List Nat :=
  match e.name with
  | some s => encodeWord 1 ++ e.rgba8 ++ encodeString s
  | none => encodeWord 0 ++ e.rgba8

/-- Encode the palette entries in map order. -/
def encodePaletteEntries : List (Nat × ColorPaletteEntry) → List Nat
  | [] => []
  | (_, e) :: rest => encodePaletteEntry e ++ encodePaletteEntries rest

/-- Encode a palette chunk per section 6: total count, first and last color
index, 8 reserved bytes, then the entries.  A decoded palette's keys are
consecutive, so `first` is the head key and `last` follows from the length;
an empty palette is encoded with the wrapping range `first = 0`,
`last = 2 ^ 32 - 1`, whose `u32` count is `0`. -/
def encodePalette (p : ColorPalette) : List Nat :=
  match p.entries with
  | [] =>
    encodeDword 0 ++ encodeDword 0 ++ encodeDword (2 ^ 32 - 1) ++
      List.replicate 8 0
  | (k, _) :: _ =>
    encodeDword (p.entries.length % 2 ^ 32) ++ encodeDword k ++
      encodeDword (k + p.entries.length - 1) ++ List.replicate 8 0 ++
      encodePaletteEntries p.entries

/-- Encode a `Slice9` record (section 6 layout). -/
def encodeSlice9 (v : Slice9) : List Nat :=
  encodeLong v.center_x ++ encodeLong v.center_y ++
    encodeDword v.center_width ++ encodeDword v.center_height

/-- Encode one slice key: frame, origin, size, then the optional sub-records
that are present. -/
def encodeSliceKey (k : SliceKey) : List Nat :=
  encodeDword k.from_frame ++ encodeLong k.origin.x ++ encodeLong k.origin.y ++
    encodeDword k.size.width ++ encodeDword k.size.height ++
    (match k.slice9 with
      | some v => encodeSlice9 v
      | none => []) ++
    (match k.pivot with
      | some v => encodeLong v.x ++ encodeLong v.y
      | none => [])

/-- Encode the slice keys in order. -/
def encodeSliceKeys : List SliceKey → List Nat
  | [] => []
  | k :: rest => encodeSliceKey k ++ encodeSliceKeys rest

/-- The flags dword of a re-encoded slice: bit 0 iff the keys carry `slice9`
sub-records, bit 1 iff they carry `pivot` sub-records (presence is uniform
across a decoded slice's keys). -/
def sliceFlags (s : Slice) : Nat :=
  match s.keys with
  | [] => 0
  | k :: _ =>
    (if k.slice9.isSome then 1 else 0) + (if k.pivot.isSome then 2 else 0)

/-- Encode a slice chunk per section 6: key count, flags, reserved dword,
length-prefixed name, then the keys. -/
def encodeSlice (s : Slice) : List Nat :=
  encodeDword (s.keys.length % 2 ^ 32) ++ encodeDword (sliceFlags s) ++
    encodeDword 0 ++ encodeString s.name ++ encodeSliceKeys s.keys

/-- All elements of a byte buffer are actual bytes. -/
abbrev ByteBuf (bs : List Nat) : Prop := ∀ x ∈ bs, x < 256

/-- A string a successful decode can produce: short enough for its `u16`
length prefix, made of bytes, valid UTF-8. -/
def WFName (s : List Nat) : Prop :=
  s.length < 2 ^ 16 ∧ ByteBuf s ∧ validUtf8 s = true

/-- A palette entry a successful decode can produce: four channel bytes and
a well-formed optional name. -/
def WFEntry (e : ColorPaletteEntry) : Prop :=
  e.rgba8.length = 4 ∧ ByteBuf e.rgba8 ∧ ∀ s, e.name = some s → WFName s

/-- The palette bindings a successful decode produces, starting at key `k`:
consecutive keys, each entry's `id` equal to its key, each entry
well-formed. -/
def WFEntriesFrom : Nat → List (Nat × ColorPaletteEntry) → Prop
  | _, [] => True
  | k, (k', e) :: rest =>
    k' = k ∧ e.id = k ∧ WFEntry e ∧ WFEntriesFrom (k + 1) rest

/-- A `Slice9` a successful decode can produce: `i32`/`u32` field ranges. -/
def WFSlice9 (v : Slice9) : Prop :=
  -(2 ^ 31) ≤ v.center_x ∧ v.center_x < 2 ^ 31 ∧
  -(2 ^ 31) ≤ v.center_y ∧ v.center_y < 2 ^ 31 ∧
  v.center_width < 2 ^ 32 ∧ v.center_height < 2 ^ 32

/-- A slice key a successful decode can produce: all fields within their
`u32`/`i32` ranges. -/
def WFSliceKey (k : SliceKey) : Prop :=
  k.from_frame < 2 ^ 32 ∧
  -(2 ^ 31) ≤ k.origin.x ∧ k.origin.x < 2 ^ 31 ∧
  -(2 ^ 31) ≤ k.origin.y ∧ k.origin.y < 2 ^ 31 ∧
  k.size.width < 2 ^ 32 ∧ k.size.height < 2 ^ 32 ∧
  (∀ v, k.slice9 = some v → WFSlice9 v) ∧
  (∀ v, k.pivot = some v →
    -(2 ^ 31) ≤ v.x ∧ v.x < 2 ^ 31 ∧ -(2 ^ 31) ≤ v.y ∧ v.y < 2 ^ 31)

/-- A key's optional sub-records are present exactly as `flags` dictates. -/
def KeyMatches (flags : Nat) (k : SliceKey) : Prop :=
  (flags &&& 1 = 0 → k.slice9 = none) ∧
  (flags &&& 1 ≠ 0 → k.slice9.isSome = true) ∧
  (flags &&& 2 = 0 → k.pivot = none) ∧
  (flags &&& 2 ≠ 0 → k.pivot.isSome = true)

/-! ### Extension lemmas: a reading step only depends on the consumed prefix -/

/-- A reading step only depends on the prefix of the buffer it consumes:
success on `b` carries over to any extension `b ++ s`, with the unread
suffix extended the same way. -/
def ReadExtends {α : Type _} (p : ReadM α) : Prop :=
  ∀ b s v r, p b = .ok (v, r) → p (b ++ s) = .ok (v, r ++ s)

theorem pok_extends {α : Type _} (c : α) : ReadExtends (pok c) := by
  intro b s v r h
  simp only [pok, Except.ok.injEq, Prod.mk.injEq] at h ⊢
  exact ⟨h.1, by rw [h.2]⟩

theorem perr_extends {α : Type _} (e : AsepriteParseError) :
    ReadExtends (perr (α := α) e) := by
  intro b s v r h
  simp [perr] at h

theorem pbind_extends {α β : Type _} {p : ReadM α} {q : α → ReadM β}
    (hp : ReadExtends p) (hq : ∀ a, ReadExtends (q a)) :
    ReadExtends (pbind p q) := by
  intro b s v r h
  unfold pbind at h ⊢
  cases hp1 : p b with
  | error e => rw [hp1] at h; simp at h
  | ok x =>
    obtain ⟨a, r1⟩ := x
    rw [hp1] at h
    rw [hp b s a r1 hp1]
    exact hq a r1 s v r h

theorem ite_extends {α : Type _} (c : Prop) [Decidable c] {p q : ReadM α}
    (hp : ReadExtends p) (hq : ReadExtends q) :
    ReadExtends (if c then p else q) := by
  by_cases hc : c
  · rw [if_pos hc]; exact hp
  · rw [if_neg hc]; exact hq

theorem preadOpt_extends {α : Type _} (c : Prop) [Decidable c] {p : ReadM α}
    (hp : ReadExtends p) : ReadExtends (preadOpt c p) := by
  unfold preadOpt
  exact ite_extends c (pbind_extends hp fun v => pok_extends _) (pok_extends _)

theorem readByte_extends : ReadExtends readByte := by
  intro b s v r h
  cases b with
  | nil => simp [readByte] at h
  | cons x xs =>
    simp only [readByte, Except.ok.injEq, Prod.mk.injEq, List.cons_append] at h ⊢
    exact ⟨h.1, by rw [h.2]⟩

theorem readWord_extends : ReadExtends readWord :=
  pbind_extends readByte_extends fun b0 =>
    pbind_extends readByte_extends fun b1 => pok_extends _

theorem readDword_extends : ReadExtends readDword :=
  pbind_extends readByte_extends fun b0 =>
    pbind_extends readByte_extends fun b1 =>
      pbind_extends readByte_extends fun b2 =>
        pbind_extends readByte_extends fun b3 => pok_extends _

theorem readLong_extends : ReadExtends readLong :=
  pbind_extends readDword_extends fun raw =>
    ite_extends _ (pok_extends _) (pok_extends _)

theorem skipReserved_extends (n : Nat) : ReadExtends (skipReserved n) := by
  intro b s v r h
  unfold skipReserved at h ⊢
  split at h
  · next hle =>
    simp only [Except.ok.injEq, Prod.mk.injEq] at h
    rw [if_pos (by simp; omega)]
    simp only [Except.ok.injEq, Prod.mk.injEq, true_and, h.1]
    rw [← h.2, List.drop_append_of_le_length hle]
  · simp at h

theorem readBytes_extends (n : Nat) : ReadExtends (readBytes n) := by
  intro b s v r h
  unfold readBytes at h ⊢
  split at h
  · next hle =>
    simp only [Except.ok.injEq, Prod.mk.injEq] at h
    rw [if_pos (by simp; omega)]
    simp only [Except.ok.injEq, Prod.mk.injEq]
    constructor
    · rw [← h.1, List.take_append_of_le_length hle]
    · rw [← h.2, List.drop_append_of_le_length hle]
  · simp at h

theorem readString_extends : ReadExtends readString :=
  pbind_extends readWord_extends fun n =>
    pbind_extends (readBytes_extends n) fun s =>
      ite_extends _ (pok_extends _) (perr_extends _)

theorem readPaletteEntry_extends (id : Nat) :
    ReadExtends (readPaletteEntry id) :=
  pbind_extends readWord_extends fun flags =>
    pbind_extends readByte_extends fun red =>
      pbind_extends readByte_extends fun green =>
        pbind_extends readByte_extends fun blue =>
          pbind_extends readByte_extends fun alpha =>
            pbind_extends (preadOpt_extends _ readString_extends) fun name =>
              pok_extends _

theorem readPaletteEntries_extends (first : Nat) :
    ∀ (n : Nat) (acc : List (Nat × ColorPaletteEntry)) (i : Nat),
      ReadExtends (readPaletteEntries first acc i n) := by
  intro n
  induction n with
  | zero => intro acc i; exact pok_extends acc
  | succ m ih =>
    intro acc i
    unfold readPaletteEntries
    exact pbind_extends (readPaletteEntry_extends _) fun e =>
      ih (insertEntry acc ((i + first) % 2 ^ 32) e) (i + 1)

theorem paletteParseChunkR_extends : ReadExtends paletteParseChunkR :=
  pbind_extends readDword_extends fun _n =>
    pbind_extends readDword_extends fun first =>
      pbind_extends readDword_extends fun last =>
        pbind_extends (skipReserved_extends 8) fun _ =>
          ite_extends _ (perr_extends _)
            (pbind_extends (readPaletteEntries_extends first _ [] 0)
              fun entries => pok_extends _)

theorem slice9_read_extends : ReadExtends Slice9.read :=
  pbind_extends readLong_extends fun _ =>
    pbind_extends readLong_extends fun _ =>
      pbind_extends readDword_extends fun _ =>
        pbind_extends readDword_extends fun _ => pok_extends _

theorem sliceOrigin_read_extends : ReadExtends SliceOrigin.read :=
  pbind_extends readLong_extends fun _ =>
    pbind_extends readLong_extends fun _ => pok_extends _

theorem sliceSize_read_extends : ReadExtends SliceSize.read :=
  pbind_extends readDword_extends fun _ =>
    pbind_extends readDword_extends fun _ => pok_extends _

theorem slicePivot_read_extends : ReadExtends SlicePivot.read :=
  pbind_extends readLong_extends fun _ =>
    pbind_extends readLong_extends fun _ => pok_extends _

theorem sliceKey_read_extends (flags : Nat) :
    ReadExtends (SliceKey.read flags) :=
  pbind_extends readDword_extends fun _ =>
    pbind_extends sliceOrigin_read_extends fun _ =>
      pbind_extends sliceSize_read_extends fun _ =>
        pbind_extends (preadOpt_extends _ slice9_read_extends) fun _ =>
          pbind_extends (preadOpt_extends _ slicePivot_read_extends) fun _ =>
            pok_extends _

theorem readSliceKeys_extends (flags : Nat) :
    ∀ n : Nat, ReadExtends (readSliceKeys flags n) := by
  intro n
  induction n with
  | zero => exact pok_extends []
  | succ m ih =>
    unfold readSliceKeys
    exact pbind_extends (sliceKey_read_extends flags) fun k =>
      pbind_extends ih fun ks => pok_extends _

theorem sliceParseChunkR_extends : ReadExtends sliceParseChunkR :=
  pbind_extends readDword_extends fun num =>
    pbind_extends readDword_extends fun flags =>
      pbind_extends readDword_extends fun _ =>
        pbind_extends readString_extends fun name =>
          pbind_extends (readSliceKeys_extends flags num) fun ks =>
            pok_extends _

/-! ### Evaluation lemmas and error classification -/

theorem pbind_ok {α β : Type _} {p : ReadM α} {q : α → ReadM β}
    {bs : List Nat} {a : α} {r : List Nat} (h : p bs = .ok (a, r)) :
    pbind p q bs = q a r := by
  unfold pbind; rw [h]

theorem pbind_error {α β : Type _} {p : ReadM α} {q : α → ReadM β}
    {bs : List Nat} {e : AsepriteParseError} (h : p bs = .error e) :
    pbind p q bs = .error e := by
  unfold pbind; rw [h]

/-- A reading step that never fails with an `InvalidInput` error (the reader
primitives only fail with end-of-input or UTF-8 conditions). -/
def NoInvalid {α : Type _} (p : ReadM α) : Prop :=
  ∀ bs msg, p bs ≠ .error (.invalidInput msg)

theorem pok_noInvalid {α : Type _} (a : α) : NoInvalid (pok a) := by
  intro bs msg h
  simp [pok] at h

theorem pbind_noInvalid {α β : Type _} {p : ReadM α} {q : α → ReadM β}
    (hp : NoInvalid p) (hq : ∀ a, NoInvalid (q a)) : NoInvalid (pbind p q) := by
  intro bs msg h
  cases h0 : p bs with
  | error e =>
    rw [pbind_error h0] at h
    injection h with he
    exact hp bs msg (he ▸ h0)
  | ok x =>
    obtain ⟨a, r⟩ := x
    rw [pbind_ok h0] at h
    exact hq a r msg h

theorem ite_noInvalid {α : Type _} (c : Prop) [Decidable c] {p q : ReadM α}
    (hp : NoInvalid p) (hq : NoInvalid q) : NoInvalid (if c then p else q) := by
  by_cases hc : c
  · rw [if_pos hc]; exact hp
  · rw [if_neg hc]; exact hq

theorem preadOpt_noInvalid {α : Type _} (c : Prop) [Decidable c] {p : ReadM α}
    (hp : NoInvalid p) : NoInvalid (preadOpt c p) := by
  unfold preadOpt
  exact ite_noInvalid c (pbind_noInvalid hp fun v => pok_noInvalid _)
    (pok_noInvalid _)

theorem readByte_noInvalid : NoInvalid readByte := by
  intro bs msg h
  cases bs <;> simp [readByte] at h

theorem readWord_noInvalid : NoInvalid readWord :=
  pbind_noInvalid readByte_noInvalid fun _ =>
    pbind_noInvalid readByte_noInvalid fun _ => pok_noInvalid _

theorem readDword_noInvalid : NoInvalid readDword :=
  pbind_noInvalid readByte_noInvalid fun _ =>
    pbind_noInvalid readByte_noInvalid fun _ =>
      pbind_noInvalid readByte_noInvalid fun _ =>
        pbind_noInvalid readByte_noInvalid fun _ => pok_noInvalid _

theorem readBytes_noInvalid (n : Nat) : NoInvalid (readBytes n) := by
  intro bs msg h
  unfold readBytes at h
  split at h <;> simp at h

theorem readString_noInvalid : NoInvalid readString := by
  refine pbind_noInvalid readWord_noInvalid fun n =>
    pbind_noInvalid (readBytes_noInvalid n) fun s => ite_noInvalid _ (pok_noInvalid _) ?_
  intro bs msg h
  simp [perr] at h

theorem readPaletteEntry_noInvalid (id : Nat) :
    NoInvalid (readPaletteEntry id) :=
  pbind_noInvalid readWord_noInvalid fun _ =>
    pbind_noInvalid readByte_noInvalid fun _ =>
      pbind_noInvalid readByte_noInvalid fun _ =>
        pbind_noInvalid readByte_noInvalid fun _ =>
          pbind_noInvalid readByte_noInvalid fun _ =>
            pbind_noInvalid (preadOpt_noInvalid _ readString_noInvalid) fun _ =>
              pok_noInvalid _

theorem readPaletteEntries_noInvalid (first : Nat) :
    ∀ (n : Nat) (acc : List (Nat × ColorPaletteEntry)) (i : Nat),
      NoInvalid (readPaletteEntries first acc i n) := by
  intro n
  induction n with
  | zero => intro acc i; exact pok_noInvalid acc
  | succ m ih =>
    intro acc i
    unfold readPaletteEntries
    exact pbind_noInvalid (readPaletteEntry_noInvalid _) fun e =>
      ih (insertEntry acc ((i + first) % 2 ^ 32) e) (i + 1)

/-- Reduce `paletteParseChunkR` once the header reads are known to succeed:
what remains is the range check followed by the entry loop on `rest`. -/
theorem paletteParseChunkR_of_header {data : List Nat} {first last : Nat}
    {rest : List Nat} (h : paletteHeader data = some (first, last, rest)) :
    paletteParseChunkR data =
      (if last < first then
          perr (.invalidInput (badPaletteIndicesMsg first last))
        else
          pbind (readPaletteEntries first [] 0 ((last - first + 1) % 2 ^ 32))
            fun entries => pok (⟨entries⟩ : ColorPalette)) rest := by
  unfold paletteHeader at h
  unfold paletteParseChunkR
  cases h0 : readDword data with
  | error e => rw [pbind_error h0] at h ⊢; simp [pbind_error h0] at h
  | ok x0 =>
    obtain ⟨n0, r0⟩ := x0
    rw [pbind_ok h0] at h ⊢
    cases h1 : readDword r0 with
    | error e => rw [pbind_error h1] at h ⊢; simp [pbind_error h1] at h
    | ok x1 =>
      obtain ⟨first0, r1⟩ := x1
      rw [pbind_ok h1] at h ⊢
      cases h2 : readDword r1 with
      | error e => rw [pbind_error h2] at h ⊢; simp [pbind_error h2] at h
      | ok x2 =>
        obtain ⟨last0, r2⟩ := x2
        rw [pbind_ok h2] at h ⊢
        cases h3 : skipReserved 8 r2 with
        | error e => rw [pbind_error h3] at h ⊢; simp [pbind_error h3] at h
        | ok x3 =>
          obtain ⟨u, r3⟩ := x3
          rw [pbind_ok h3] at h ⊢
          simp only [pok, Option.some.injEq] at h
          obtain ⟨hf, hl, hr⟩ : first0 = first ∧ last0 = last ∧ r3 = rest := by
            have := h
            simp_all
          subst hf; subst hl; subst hr
          rfl

theorem map_fst_error {α : Type _} {X : Except AsepriteParseError (α × List Nat)}
    {e : AsepriteParseError} (h : X.map Prod.fst = .error e) : X = .error e := by
  cases X <;> simp_all [Except.map]

theorem map_fst_ok {α : Type _} {X : Except AsepriteParseError (α × List Nat)}
    {v : α} (h : X.map Prod.fst = .ok v) : ∃ r, X = .ok (v, r) := by
  cases hX : X with
  | error e => rw [hX] at h; simp [Except.map] at h
  | ok x =>
    obtain ⟨a, r⟩ := x
    rw [hX] at h
    simp only [Except.map, Except.ok.injEq] at h
    exact ⟨r, by rw [h]⟩

/-- C1: palette decode fails with an invalid-input error carrying both
`first_color_index` and `last_color_index` if and only if
`last_color_index < first_color_index` (as read from the header); when
`last_color_index ≥ first_color_index` the decoder proceeds past this check
and never produces an invalid-input error. -/
theorem C1_palette_invalid_range {data : List Nat} {first last : Nat}
    {rest : List Nat} (h : paletteHeader data = some (first, last, rest)) :
    (paletteParseChunk data =
        .error (.invalidInput (badPaletteIndicesMsg first last)) ↔
      last < first)
    ∧ (first ≤ last →
        ∀ msg, paletteParseChunk data ≠ .error (.invalidInput msg)) := by
  have hR := paletteParseChunkR_of_header h
  have hni : NoInvalid
      (pbind (readPaletteEntries first [] 0 ((last - first + 1) % 2 ^ 32))
        fun entries => pok (⟨entries⟩ : ColorPalette)) :=
    pbind_noInvalid (readPaletteEntries_noInvalid first _ [] 0)
      fun es => pok_noInvalid _
  by_cases hc : last < first
  · rw [if_pos hc] at hR
    constructor
    · constructor
      · intro _; exact hc
      · intro _
        unfold paletteParseChunk
        rw [hR]
        rfl
    · intro hle
      exact absurd hc (by omega)
  · rw [if_neg hc] at hR
    have hne : ∀ msg, paletteParseChunk data ≠ .error (.invalidInput msg) := by
      intro msg hEq
      unfold paletteParseChunk at hEq
      rw [hR] at hEq
      exact hni rest msg (map_fst_error hEq)
    constructor
    · constructor
      · intro hEq; exact absurd hEq (hne _)
      · intro hlt; exact absurd hlt hc
    · intro _; exact hne

/-- C1 witness: a concrete 20-byte palette chunk whose header reads
`first_color_index = 1`, `last_color_index = 0` decodes to exactly the
invalid-input error carrying both values. -/
theorem C1_palette_invalid_range_witness :
    paletteHeader [0, 0, 0, 0, 1, 0, 0, 0, 0, 0, 0, 0,
        0, 0, 0, 0, 0, 0, 0, 0] = some (1, 0, []) ∧
    paletteParseChunk [0, 0, 0, 0, 1, 0, 0, 0, 0, 0, 0, 0,
        0, 0, 0, 0, 0, 0, 0, 0] =
      .error (.invalidInput (badPaletteIndicesMsg 1 0)) :=
  ⟨by rfl, (C1_palette_invalid_range (by rfl)).1.mpr (by decide)⟩

/-! ### Postconditions of reading steps and byte-buffer propagation -/

/-- `Q` holds of every value a reading step can successfully produce. -/
def PostOk {α : Type _} (p : ReadM α) (Q : α → Prop) : Prop :=
  ∀ bs a r, p bs = .ok (a, r) → Q a

theorem postOk_pok {α : Type _} {Q : α → Prop} {a : α} (h : Q a) :
    PostOk (pok a) Q := by
  intro bs a' r' h'
  simp only [pok, Except.ok.injEq, Prod.mk.injEq] at h'
  rw [← h'.1]
  exact h

theorem postOk_perr {α : Type _} {Q : α → Prop} (e : AsepriteParseError) :
    PostOk (perr e) Q := by
  intro bs a' r' h'
  simp [perr] at h'

theorem postOk_pbind {α β : Type _} {p : ReadM α} {q : α → ReadM β}
    {Qp : α → Prop} {Q : β → Prop} (hp : PostOk p Qp)
    (hq : ∀ a, Qp a → PostOk (q a) Q) : PostOk (pbind p q) Q := by
  intro bs b r h
  cases h0 : p bs with
  | error e => rw [pbind_error h0] at h; simp at h
  | ok x =>
    obtain ⟨a, r1⟩ := x
    rw [pbind_ok h0] at h
    exact hq a (hp bs a r1 h0) r1 b r h

theorem postOk_true {α : Type _} (p : ReadM α) : PostOk p (fun _ => True) :=
  fun _ _ _ _ => trivial

theorem postOk_ite {α : Type _} (c : Prop) [Decidable c] {p q : ReadM α}
    {Q : α → Prop} (hp : c → PostOk p Q) (hq : ¬c → PostOk q Q) :
    PostOk (if c then p else q) Q := by
  by_cases hc : c
  · rw [if_pos hc]; exact hp hc
  · rw [if_neg hc]; exact hq hc

/-- `preadOpt c p` returns `some` exactly when `c` holds. -/
theorem postOk_preadOpt {α : Type _} (c : Prop) [Decidable c] (p : ReadM α) :
    PostOk (preadOpt c p) (fun o => (c → o.isSome = true) ∧ (¬c → o = none)) := by
  unfold preadOpt
  refine postOk_ite c (fun hc => ?_) (fun hc => ?_)
  · exact postOk_pbind (postOk_true p) fun a _ =>
      postOk_pok ⟨fun _ => rfl, fun hnc => absurd hc hnc⟩
  · exact postOk_pok ⟨fun hcc => absurd hcc hc, fun _ => rfl⟩

/-- Success of a reading step on a byte buffer leaves a byte buffer, and the
produced value satisfies `Q` whenever the input was a byte buffer. -/
def BytePost {α : Type _} (p : ReadM α) (Q : α → Prop) : Prop :=
  ∀ bs a r, p bs = .ok (a, r) → ByteBuf bs → Q a ∧ ByteBuf r

theorem bytePost_pok {α : Type _} {Q : α → Prop} {a : α} (h : Q a) :
    BytePost (pok a) Q := by
  intro bs a' r' h' hb
  simp only [pok, Except.ok.injEq, Prod.mk.injEq] at h'
  rw [← h'.1, ← h'.2]
  exact ⟨h, hb⟩

theorem bytePost_perr {α : Type _} {Q : α → Prop} (e : AsepriteParseError) :
    BytePost (perr e) Q := by
  intro bs a' r' h' hb
  simp [perr] at h'

theorem bytePost_pbind {α β : Type _} {p : ReadM α} {q : α → ReadM β}
    {Qp : α → Prop} {Q : β → Prop} (hp : BytePost p Qp)
    (hq : ∀ a, Qp a → BytePost (q a) Q) : BytePost (pbind p q) Q := by
  intro bs b r h hb
  cases h0 : p bs with
  | error e => rw [pbind_error h0] at h; simp at h
  | ok x =>
    obtain ⟨a, r1⟩ := x
    rw [pbind_ok h0] at h
    obtain ⟨hQp, hb1⟩ := hp bs a r1 h0 hb
    exact hq a hQp r1 b r h hb1

theorem bytePost_ite {α : Type _} (c : Prop) [Decidable c] {p q : ReadM α}
    {Q : α → Prop} (hp : c → BytePost p Q) (hq : ¬c → BytePost q Q) :
    BytePost (if c then p else q) Q := by
  by_cases hc : c
  · rw [if_pos hc]; exact hp hc
  · rw [if_neg hc]; exact hq hc

theorem bytePost_readByte : BytePost readByte (fun v => v < 256) := by
  intro bs a r h hb
  cases bs with
  | nil => simp [readByte] at h
  | cons x xs =>
    simp only [readByte, Except.ok.injEq, Prod.mk.injEq] at h
    constructor
    · rw [← h.1]; exact hb x (List.mem_cons_self x xs)
    · rw [← h.2]; exact fun y hy => hb y (List.mem_cons_of_mem x hy)

theorem bytePost_readWord : BytePost readWord (fun v => v < 2 ^ 16) :=
  bytePost_pbind bytePost_readByte fun b0 hb0 =>
    bytePost_pbind bytePost_readByte fun b1 hb1 =>
      bytePost_pok (by omega)

theorem bytePost_readDword : BytePost readDword (fun v => v < 2 ^ 32) :=
  bytePost_pbind bytePost_readByte fun b0 hb0 =>
    bytePost_pbind bytePost_readByte fun b1 hb1 =>
      bytePost_pbind bytePost_readByte fun b2 hb2 =>
        bytePost_pbind bytePost_readByte fun b3 hb3 =>
          bytePost_pok (by omega)

theorem bytePost_readLong :
    BytePost readLong (fun v => -(2 ^ 31) ≤ v ∧ v < 2 ^ 31) := by
  refine bytePost_pbind bytePost_readDword fun raw hraw => ?_
  refine bytePost_ite _ (fun hc => bytePost_pok ⟨?_, ?_⟩)
    (fun hc => bytePost_pok ⟨?_, ?_⟩) <;> omega

theorem bytePost_skipReserved (n : Nat) :
    BytePost (skipReserved n) (fun _ => True) := by
  intro bs a r h hb
  unfold skipReserved at h
  split at h
  · simp only [Except.ok.injEq, Prod.mk.injEq] at h
    refine ⟨trivial, ?_⟩
    rw [← h.2]
    exact fun y hy => hb y (List.mem_of_mem_drop hy)
  · simp at h

theorem bytePost_readBytes (n : Nat) :
    BytePost (readBytes n) (fun s => s.length = n ∧ ByteBuf s) := by
  intro bs a r h hb
  unfold readBytes at h
  split at h
  · next hle =>
    simp only [Except.ok.injEq, Prod.mk.injEq] at h
    refine ⟨⟨?_, ?_⟩, ?_⟩
    · rw [← h.1]; simp [List.length_take]; omega
    · rw [← h.1]; exact fun y hy => hb y (List.mem_of_mem_take hy)
    · rw [← h.2]; exact fun y hy => hb y (List.mem_of_mem_drop hy)
  · simp at h

theorem bytePost_readString :
    BytePost readString
      (fun s => s.length < 2 ^ 16 ∧ ByteBuf s ∧ validUtf8 s = true) := by
  refine bytePost_pbind bytePost_readWord fun n hn => ?_
  refine bytePost_pbind (bytePost_readBytes n) fun s hs => ?_
  refine bytePost_ite _ (fun hv => bytePost_pok ?_) (fun hv => bytePost_perr _)
  exact ⟨by omega, hs.2, hv⟩

/-- The entry built by one loop iteration carries the id it was given. -/
theorem readPaletteEntry_id (id : Nat) :
    PostOk (readPaletteEntry id) (fun e => e.id = id) :=
  postOk_pbind (postOk_true _) fun _flags _ =>
    postOk_pbind (postOk_true _) fun _red _ =>
      postOk_pbind (postOk_true _) fun _green _ =>
        postOk_pbind (postOk_true _) fun _blue _ =>
          postOk_pbind (postOk_true _) fun _alpha _ =>
            postOk_pbind (postOk_true _) fun _name _ => postOk_pok rfl

/-- Inserting a key absent from the map appends a new binding. -/
theorem insertEntry_fresh {m : List (Nat × ColorPaletteEntry)} {k : Nat}
    {v : ColorPaletteEntry} (h : ∀ q ∈ m, q.1 ≠ k) :
    insertEntry m k v = m ++ [(k, v)] := by
  have hna : ¬(m.any (fun p => p.1 = k) = true) := by
    simp only [List.any_eq_true, decide_eq_true_eq]
    rintro ⟨q, hq, hqk⟩
    exact h q hq hqk
  unfold insertEntry
  rw [if_neg hna]

/-- Characterization of the palette entry loop: starting from an accumulator
whose keys come from local offsets `< i`, a successful run of `n` more
iterations appends exactly `n` fresh bindings, each with its `id` equal to
its key and its key of the form `(j + first) % 2 ^ 32` for a loop offset
`i ≤ j < i + n`. -/
theorem readPaletteEntries_char (first : Nat) :
    ∀ (n i : Nat) (acc : List (Nat × ColorPaletteEntry)) (bs : List Nat)
      (entries : List (Nat × ColorPaletteEntry)) (r : List Nat),
      readPaletteEntries first acc i n bs = .ok (entries, r) →
      (∀ q ∈ acc, ∃ j, j < i ∧ q.1 = (j + first) % 2 ^ 32) →
      i + n ≤ 2 ^ 32 →
      entries.length = acc.length + n ∧
      ∀ q ∈ entries, q ∈ acc ∨
        (q.2.id = q.1 ∧ ∃ j, i ≤ j ∧ j < i + n ∧ q.1 = (j + first) % 2 ^ 32) := by
  intro n
  induction n with
  | zero =>
    intro i acc bs entries r h hacc hin
    simp only [readPaletteEntries, pok, Except.ok.injEq, Prod.mk.injEq] at h
    rw [← h.1]
    exact ⟨rfl, fun q hq => Or.inl hq⟩
  | succ m ih =>
    intro i acc bs entries r h hacc hin
    unfold readPaletteEntries at h
    cases h0 : readPaletteEntry ((i + first) % 2 ^ 32) bs with
    | error e => rw [pbind_error h0] at h; simp at h
    | ok x =>
      obtain ⟨e, r1⟩ := x
      rw [pbind_ok h0] at h
      have hid : e.id = (i + first) % 2 ^ 32 :=
        readPaletteEntry_id _ bs e r1 h0
      have hfresh : ∀ q ∈ acc, q.1 ≠ (i + first) % 2 ^ 32 := by
        intro q hq
        obtain ⟨j, hj, hqe⟩ := hacc q hq
        rw [hqe]
        omega
      rw [insertEntry_fresh hfresh] at h
      have hacc' : ∀ q ∈ acc ++ [((i + first) % 2 ^ 32, e)],
          ∃ j, j < i + 1 ∧ q.1 = (j + first) % 2 ^ 32 := by
        intro q hq
        rcases List.mem_append.mp hq with hq | hq
        · obtain ⟨j, hj, hqe⟩ := hacc q hq
          exact ⟨j, by omega, hqe⟩
        · rw [List.mem_singleton.mp hq]
          exact ⟨i, by omega, rfl⟩
      obtain ⟨hlen, hmem⟩ :=
        ih (i + 1) (acc ++ [((i + first) % 2 ^ 32, e)]) r1 entries r h hacc'
          (by omega)
      constructor
      · simp only [List.length_append, List.length_singleton] at hlen
        omega
      · intro q hq
        rcases hmem q hq with hq' | hq'
        · rcases List.mem_append.mp hq' with hq'' | hq''
          · exact Or.inl hq''
          · right
            rw [List.mem_singleton.mp hq'']
            exact ⟨hid, i, le_refl i, by omega, rfl⟩
        · obtain ⟨hqid, j, hj1, hj2, hqe⟩ := hq'
          exact Or.inr ⟨hqid, j, by omega, by omega, hqe⟩

/-- C2 (amended): on every successful palette decode, `num_colors()` equals
`(last_color_index - first_color_index + 1) % 2 ^ 32` — the `u32` count the
code computes — and the entries map holds exactly that many bindings.  (The
amendment: the count is taken modulo `2 ^ 32`; see the counterexample where
`last - first + 1` wraps to `0`.) -/
theorem C2_palette_num_colors {data : List Nat} {first last : Nat}
    {rest : List Nat} {p : ColorPalette}
    (hh : paletteHeader data = some (first, last, rest))
    (hp : paletteParseChunk data = .ok p) :
    p.num_colors = (last - first + 1) % 2 ^ 32 ∧
    p.entries.length = (last - first + 1) % 2 ^ 32 := by
  obtain ⟨r, hpr⟩ := map_fst_ok hp
  rw [paletteParseChunkR_of_header hh] at hpr
  by_cases hc : last < first
  · rw [if_pos hc] at hpr; simp [perr] at hpr
  · rw [if_neg hc] at hpr
    cases h0 : readPaletteEntries first [] 0 ((last - first + 1) % 2 ^ 32) rest with
    | error e => rw [pbind_error h0] at hpr; simp at hpr
    | ok x =>
      obtain ⟨entries, r1⟩ := x
      rw [pbind_ok h0] at hpr
      simp only [pok, Except.ok.injEq, Prod.mk.injEq] at hpr
      obtain ⟨hlen, _⟩ :=
        readPaletteEntries_char first _ 0 [] rest entries r1 h0
          (by simp) (by omega)
      rw [← hpr.1]
      unfold ColorPalette.num_colors
      simp only [List.length_nil] at hlen
      constructor
      · show List.length entries % 2 ^ 32 = (last - first + 1) % 2 ^ 32
        omega
      · show List.length entries = (last - first + 1) % 2 ^ 32
        omega

/-- C2 witness: the spec's concrete scenario A — palette bytes with
`first = 0`, `last = 1` and two entries (the second named "Grass") decode to
a palette with two colors. -/
theorem C2_palette_num_colors_witness :
    ColorPalette.num_colors
        ⟨[(0, ⟨0, [255, 0, 0, 255], none⟩),
          (1, ⟨1, [0, 255, 0, 255], some [71, 114, 97, 115, 115]⟩)]⟩ =
      (1 - 0 + 1) % 2 ^ 32 ∧
    List.length (ColorPalette.entries
        ⟨[(0, ⟨0, [255, 0, 0, 255], none⟩),
          (1, ⟨1, [0, 255, 0, 255], some [71, 114, 97, 115, 115]⟩)]⟩) =
      (1 - 0 + 1) % 2 ^ 32 :=
  @C2_palette_num_colors
    [0, 0, 0, 0, 0, 0, 0, 0, 1, 0, 0, 0, 0, 0, 0, 0, 0, 0, 0, 0,
      0, 0, 255, 0, 0, 255,
      1, 0, 0, 255, 0, 255, 5, 0, 71, 114, 97, 115, 115]
    0 1
    [0, 0, 255, 0, 0, 255, 1, 0, 0, 255, 0, 255, 5, 0, 71, 114, 97, 115, 115]
    ⟨[(0, ⟨0, [255, 0, 0, 255], none⟩),
      (1, ⟨1, [0, 255, 0, 255], some [71, 114, 97, 115, 115]⟩)]⟩
    (by rfl) (by rfl)

/-- C2 counterexample: decode succeeds on a palette chunk whose header reads
`first = 0`, `last = 4294967295`, yet `num_colors()` is `0`, not the
mathematical `last - first + 1 = 4294967296`. -/
theorem C2_palette_num_colors_counterexample :
    paletteHeader [0, 0, 0, 0, 0, 0, 0, 0, 255, 255, 255, 255,
        0, 0, 0, 0, 0, 0, 0, 0] = some (0, 4294967295, []) ∧
    paletteParseChunk [0, 0, 0, 0, 0, 0, 0, 0, 255, 255, 255, 255,
        0, 0, 0, 0, 0, 0, 0, 0] = .ok ⟨[]⟩ ∧
    ColorPalette.num_colors ⟨[]⟩ ≠ 4294967295 - 0 + 1 :=
  ⟨rfl, rfl, by decide⟩

/-- C10: a concrete palette chunk reads `first_color_index = 0`,
`last_color_index = 2 ^ 32 - 1`; the range check passes, the `u32` count
`last - first + 1` wraps to `0`, and decode succeeds with an empty palette
(`num_colors() = 0`) although the header describes `2 ^ 32` entries. -/
theorem C10_palette_count_wrap :
    paletteHeader [0, 0, 0, 0, 0, 0, 0, 0, 255, 255, 255, 255,
        0, 0, 0, 0, 0, 0, 0, 0] = some (0, 4294967295, []) ∧
    ¬(4294967295 < (0 : Nat)) ∧
    (4294967295 - 0 + 1) % 2 ^ 32 = 0 ∧
    paletteParseChunk [0, 0, 0, 0, 0, 0, 0, 0, 255, 255, 255, 255,
        0, 0, 0, 0, 0, 0, 0, 0] = .ok ⟨[]⟩ ∧
    ColorPalette.num_colors ⟨[]⟩ = 0 :=
  ⟨rfl, by decide, by decide, rfl, rfl⟩

/-- On a byte buffer the palette header's two color indices are `u32`
values, and the remaining buffer is still a byte buffer. -/
theorem paletteHeader_bounds {data : List Nat} {first last : Nat}
    {rest : List Nat} (hh : paletteHeader data = some (first, last, rest))
    (hb : ByteBuf data) :
    first < 2 ^ 32 ∧ last < 2 ^ 32 ∧ ByteBuf rest := by
  have hpost : BytePost
      (pbind readDword fun _num_total_entries =>
        pbind readDword fun first_color_index =>
          pbind readDword fun last_color_index =>
            pbind (skipReserved 8) fun _ =>
              pok (first_color_index, last_color_index))
      (fun v => v.1 < 2 ^ 32 ∧ v.2 < 2 ^ 32) :=
    bytePost_pbind bytePost_readDword fun _ _ =>
      bytePost_pbind bytePost_readDword fun f hf =>
        bytePost_pbind bytePost_readDword fun l hl =>
          bytePost_pbind (bytePost_skipReserved 8) fun _ _ =>
            bytePost_pok ⟨hf, hl⟩
  unfold paletteHeader at hh
  cases hsc : (pbind readDword fun _num_total_entries =>
      pbind readDword fun first_color_index =>
        pbind readDword fun last_color_index =>
          pbind (skipReserved 8) fun _ =>
            pok (first_color_index, last_color_index)) data with
  | error e => rw [hsc] at hh; simp at hh
  | ok v =>
    obtain ⟨⟨f, l⟩, r⟩ := v
    rw [hsc] at hh
    simp only [Option.some.injEq, Prod.mk.injEq] at hh
    obtain ⟨⟨hf32, hl32⟩, hbr⟩ := hpost data (f, l) r hsc hb
    obtain ⟨hf, hl, hr⟩ := hh
    constructor
    · rw [← hf]; exact hf32
    constructor
    · rw [← hl]; exact hl32
    · rw [← hr]; exact hbr

/-- C8: on every successful palette decode from a byte buffer, each entry's
`id` equals the map key it is stored under, and every key lies in the closed
interval `[first_color_index, last_color_index]` read from the header. -/
theorem C8_palette_entry_ids {data : List Nat} {first last : Nat}
    {rest : List Nat} {p : ColorPalette} (hb : ByteBuf data)
    (hh : paletteHeader data = some (first, last, rest))
    (hp : paletteParseChunk data = .ok p) :
    ∀ q ∈ p.entries, q.2.id = q.1 ∧ first ≤ q.1 ∧ q.1 ≤ last := by
  obtain ⟨hfirst, hlast, _⟩ := paletteHeader_bounds hh hb
  obtain ⟨r, hpr⟩ := map_fst_ok hp
  rw [paletteParseChunkR_of_header hh] at hpr
  by_cases hc : last < first
  · rw [if_pos hc] at hpr; simp [perr] at hpr
  · rw [if_neg hc] at hpr
    cases h0 : readPaletteEntries first [] 0 ((last - first + 1) % 2 ^ 32) rest with
    | error e => rw [pbind_error h0] at hpr; simp at hpr
    | ok x =>
      obtain ⟨entries, r1⟩ := x
      rw [pbind_ok h0] at hpr
      simp only [pok, Except.ok.injEq, Prod.mk.injEq] at hpr
      obtain ⟨_, hmem⟩ :=
        readPaletteEntries_char first _ 0 [] rest entries r1 h0
          (by simp) (by omega)
      intro q hq
      rw [← hpr.1] at hq
      rcases hmem q hq with hq' | hq'
      · simp at hq'
      · obtain ⟨hqid, j, _, hj2, hqe⟩ := hq'
        refine ⟨hqid, ?_, ?_⟩ <;> omega

/-- C8 witness: in the scenario-A palette, the binding at key `0` has
`id = 0`, inside the header range `[0, 1]`. -/
theorem C8_palette_entry_ids_witness :
    (ColorPaletteEntry.id ⟨0, [255, 0, 0, 255], none⟩ = 0 ∧ 0 ≤ 0 ∧
      (0 : Nat) ≤ 1) :=
  @C8_palette_entry_ids
    [0, 0, 0, 0, 0, 0, 0, 0, 1, 0, 0, 0, 0, 0, 0, 0, 0, 0, 0, 0,
      0, 0, 255, 0, 0, 255,
      1, 0, 0, 255, 0, 255, 5, 0, 71, 114, 97, 115, 115]
    0 1
    [0, 0, 255, 0, 0, 255, 1, 0, 0, 255, 0, 255, 5, 0, 71, 114, 97, 115, 115]
    ⟨[(0, ⟨0, [255, 0, 0, 255], none⟩),
      (1, ⟨1, [0, 255, 0, 255], some [71, 114, 97, 115, 115]⟩)]⟩
    (by decide) (by rfl) (by rfl)
    (0, ⟨0, [255, 0, 0, 255], none⟩) (by decide)

/-- C7: `validate_indexed_pixels` succeeds iff every pixel value has a
palette entry; any failure is the invalid-input error naming the first
offending pixel value and the palette's entry count.  (The function is pure,
so neither the palette nor the pixels are mutated.) -/
theorem C7_validate_indexed_pixels (p : ColorPalette) (xs : List Indexed) :
    (p.validate_indexed_pixels xs = .ok () ↔
      ∀ px ∈ xs, (p.color px.value).isSome = true)
    ∧ (∀ e, p.validate_indexed_pixels xs = .error e →
        ∃ px, xs.find? (fun q => (p.color q.value).isNone) = some px ∧
          e = .invalidInput (indexOutOfRangeMsg px.value p.num_colors)) := by
  induction xs with
  | nil =>
    constructor
    · simp [ColorPalette.validate_indexed_pixels]
    · intro e he
      simp [ColorPalette.validate_indexed_pixels] at he
  | cons px rest ih =>
    cases hc : p.color px.value with
    | some entry =>
      constructor
      · rw [show p.validate_indexed_pixels (px :: rest) =
            p.validate_indexed_pixels rest by
          simp only [ColorPalette.validate_indexed_pixels]; rw [hc]]
        rw [ih.1]
        constructor
        · intro h q hq
          rcases List.mem_cons.mp hq with hq | hq
          · rw [hq, hc]; rfl
          · exact h q hq
        · intro h q hq
          exact h q (List.mem_cons_of_mem px hq)
      · intro e he
        rw [show p.validate_indexed_pixels (px :: rest) =
            p.validate_indexed_pixels rest by
          simp only [ColorPalette.validate_indexed_pixels]; rw [hc]] at he
        obtain ⟨q, hfind, he'⟩ := ih.2 e he
        refine ⟨q, ?_, he'⟩
        rw [List.find?_cons_of_neg, hfind]
        simp [hc]
    | none =>
      have hval : p.validate_indexed_pixels (px :: rest) =
          .error (.invalidInput (indexOutOfRangeMsg px.value p.num_colors)) := by
        simp only [ColorPalette.validate_indexed_pixels]
        rw [hc]
      constructor
      · rw [hval]
        constructor
        · intro h; simp at h
        · intro h
          have := h px (List.mem_cons_self px rest)
          rw [hc] at this
          simp at this
      · intro e he
        rw [hval] at he
        injection he with he'
        refine ⟨px, ?_, he'.symm⟩
        rw [List.find?_cons_of_pos]
        simp [hc]

/-- C7 witness: the spec's scenario C — with entries `{0, 1, 2}`, pixel
values `[0, 2, 1]` validate successfully, and pixel value `[3]` fails
reporting index `3` against entry count `3`. -/
theorem C7_validate_indexed_pixels_witness :
    ColorPalette.validate_indexed_pixels
        ⟨[(0, ⟨0, [0, 0, 0, 255], none⟩), (1, ⟨1, [0, 0, 0, 255], none⟩),
          (2, ⟨2, [0, 0, 0, 255], none⟩)]⟩
        [⟨0⟩, ⟨2⟩, ⟨1⟩] = .ok () ∧
    (∃ px, List.find?
          (fun q : Indexed => (ColorPalette.color
            ⟨[(0, ⟨0, [0, 0, 0, 255], none⟩), (1, ⟨1, [0, 0, 0, 255], none⟩),
              (2, ⟨2, [0, 0, 0, 255], none⟩)]⟩ q.value).isNone)
          ([⟨3⟩] : List Indexed) =
        some px ∧
      AsepriteParseError.invalidInput (indexOutOfRangeMsg 3 3) =
        .invalidInput (indexOutOfRangeMsg px.value
          (ColorPalette.num_colors
            ⟨[(0, ⟨0, [0, 0, 0, 255], none⟩), (1, ⟨1, [0, 0, 0, 255], none⟩),
              (2, ⟨2, [0, 0, 0, 255], none⟩)]⟩))) :=
  ⟨(C7_validate_indexed_pixels _ _).1.mpr (by decide),
    (C7_validate_indexed_pixels
      ⟨[(0, ⟨0, [0, 0, 0, 255], none⟩), (1, ⟨1, [0, 0, 0, 255], none⟩),
        (2, ⟨2, [0, 0, 0, 255], none⟩)]⟩ ([⟨3⟩] : List Indexed)).2 _ (by rfl)⟩

/-- Reduce `sliceParseChunkR` once the header reads are known to succeed:
what remains is the key loop on `rest` with the header's count and flags. -/
theorem sliceParseChunkR_of_header {data : List Nat} {num flags : Nat}
    {name rest : List Nat}
    (h : sliceHeader data = some (num, flags, name, rest)) :
    sliceParseChunkR data =
      (pbind (readSliceKeys flags num) fun slice_keys =>
        pok (⟨name, slice_keys, none⟩ : Slice)) rest := by
  unfold sliceHeader at h
  unfold sliceParseChunkR
  cases h0 : readDword data with
  | error e => rw [pbind_error h0] at h ⊢; simp [pbind_error h0] at h
  | ok x0 =>
    obtain ⟨num0, r0⟩ := x0
    rw [pbind_ok h0] at h ⊢
    cases h1 : readDword r0 with
    | error e => rw [pbind_error h1] at h ⊢; simp [pbind_error h1] at h
    | ok x1 =>
      obtain ⟨flags0, r1⟩ := x1
      rw [pbind_ok h1] at h ⊢
      cases h2 : readDword r1 with
      | error e => rw [pbind_error h2] at h ⊢; simp [pbind_error h2] at h
      | ok x2 =>
        obtain ⟨res0, r2⟩ := x2
        rw [pbind_ok h2] at h ⊢
        cases h3 : readString r2 with
        | error e => rw [pbind_error h3] at h ⊢; simp [pbind_error h3] at h
        | ok x3 =>
          obtain ⟨name0, r3⟩ := x3
          rw [pbind_ok h3] at h ⊢
          simp only [pok, Option.some.injEq] at h
          obtain ⟨hn, hf, hna, hr⟩ : num0 = num ∧ flags0 = flags ∧
              name0 = name ∧ r3 = rest := by
            have := h
            simp_all
          subst hn; subst hf; subst hna; subst hr
          rfl

/-- A successful run of the key loop returns exactly `n` keys. -/
theorem readSliceKeys_length (flags : Nat) :
    ∀ n : Nat, PostOk (readSliceKeys flags n) (fun ks => ks.length = n) := by
  intro n
  induction n with
  | zero => exact postOk_pok rfl
  | succ m ih =>
    unfold readSliceKeys
    exact postOk_pbind (postOk_true _) fun k _ =>
      postOk_pbind ih fun ks hks => postOk_pok (by simp [hks])

/-- C3: whenever slice decode succeeds, the returned `Slice` has exactly
`num_slice_keys` keys (the count read from the header); a failure inside any
key aborts the whole decode, so no partial `Slice` is ever returned. -/
theorem C3_slice_num_keys {data : List Nat} {num flags : Nat}
    {name rest : List Nat} {s : Slice}
    (hh : sliceHeader data = some (num, flags, name, rest))
    (hs : sliceParseChunk data = .ok s) :
    s.keys.length = num := by
  obtain ⟨r, hsr⟩ := map_fst_ok hs
  rw [sliceParseChunkR_of_header hh] at hsr
  cases h0 : readSliceKeys flags num rest with
  | error e => rw [pbind_error h0] at hsr; simp at hsr
  | ok x =>
    obtain ⟨ks, r1⟩ := x
    rw [pbind_ok h0] at hsr
    simp only [pok, Except.ok.injEq, Prod.mk.injEq] at hsr
    rw [← hsr.1]
    exact readSliceKeys_length flags num rest ks r1 h0

/-- C3 witness: the spec's scenario B — a slice chunk with one key and both
optional sub-records decodes to a `Slice` with exactly one key. -/
theorem C3_slice_num_keys_witness :
    List.length (Slice.keys
      ⟨[], [⟨0, ⟨10, 20⟩, ⟨5, 5⟩, some ⟨1, 1, 2, 2⟩, some ⟨2, 2⟩⟩], none⟩) = 1 :=
  @C3_slice_num_keys
    [1, 0, 0, 0, 3, 0, 0, 0, 0, 0, 0, 0, 0, 0,
      0, 0, 0, 0, 10, 0, 0, 0, 20, 0, 0, 0, 5, 0, 0, 0, 5, 0, 0, 0,
      1, 0, 0, 0, 1, 0, 0, 0, 2, 0, 0, 0, 2, 0, 0, 0,
      2, 0, 0, 0, 2, 0, 0, 0]
    1 3 []
    [0, 0, 0, 0, 10, 0, 0, 0, 20, 0, 0, 0, 5, 0, 0, 0, 5, 0, 0, 0,
      1, 0, 0, 0, 1, 0, 0, 0, 2, 0, 0, 0, 2, 0, 0, 0,
      2, 0, 0, 0, 2, 0, 0, 0]
    ⟨[], [⟨0, ⟨10, 20⟩, ⟨5, 5⟩, some ⟨1, 1, 2, 2⟩, some ⟨2, 2⟩⟩], none⟩
    (by rfl) (by rfl)

/-- Every key produced by `SliceKey::read` has its optional sub-records
present exactly as dictated by the chunk-level flags. -/
theorem sliceKey_read_flag_gating (flags : Nat) :
    PostOk (SliceKey.read flags) (fun k =>
      (flags &&& 1 ≠ 0 → (SliceKey.slice9 k).isSome = true) ∧
      (flags &&& 1 = 0 → SliceKey.slice9 k = none) ∧
      (flags &&& 2 ≠ 0 → (SliceKey.pivot k).isSome = true) ∧
      (flags &&& 2 = 0 → SliceKey.pivot k = none)) := by
  unfold SliceKey.read
  refine postOk_pbind (postOk_true _) fun ff _ => ?_
  refine postOk_pbind (postOk_true _) fun o _ => ?_
  refine postOk_pbind (postOk_true _) fun sz _ => ?_
  refine postOk_pbind (postOk_preadOpt _ _) fun s9 hs9 => ?_
  refine postOk_pbind (postOk_preadOpt _ _) fun pv hpv => ?_
  exact postOk_pok
    ⟨fun h => hs9.1 h, fun h => hs9.2 fun hne => hne h,
      fun h => hpv.1 h, fun h => hpv.2 fun hne => hne h⟩

/-- Flag gating propagates to every key the loop returns. -/
theorem readSliceKeys_flag_gating (flags : Nat) :
    ∀ n : Nat, PostOk (readSliceKeys flags n) (fun ks => ∀ k ∈ ks,
      (flags &&& 1 ≠ 0 → (SliceKey.slice9 k).isSome = true) ∧
      (flags &&& 1 = 0 → SliceKey.slice9 k = none) ∧
      (flags &&& 2 ≠ 0 → (SliceKey.pivot k).isSome = true) ∧
      (flags &&& 2 = 0 → SliceKey.pivot k = none)) := by
  intro n
  induction n with
  | zero => exact postOk_pok (by simp)
  | succ m ih =>
    unfold readSliceKeys
    refine postOk_pbind (sliceKey_read_flag_gating flags) fun k hk => ?_
    refine postOk_pbind ih fun ks hks => ?_
    refine postOk_pok ?_
    intro k' hk'
    rcases List.mem_cons.mp hk' with hk' | hk'
    · rw [hk']; exact hk
    · exact hks k' hk'

/-- C4: on every successful slice decode, the chunk-level flags decide the
optional sub-records uniformly across all returned keys: bit 0 set makes
every key's `slice9` a `some` (unset makes each `none`), and bit 1 does the
same for `pivot`. -/
theorem C4_slice_flag_uniform {data : List Nat} {num flags : Nat}
    {name rest : List Nat} {s : Slice}
    (hh : sliceHeader data = some (num, flags, name, rest))
    (hs : sliceParseChunk data = .ok s) :
    ∀ k ∈ s.keys,
      (flags &&& 1 ≠ 0 → (SliceKey.slice9 k).isSome = true) ∧
      (flags &&& 1 = 0 → SliceKey.slice9 k = none) ∧
      (flags &&& 2 ≠ 0 → (SliceKey.pivot k).isSome = true) ∧
      (flags &&& 2 = 0 → SliceKey.pivot k = none) := by
  obtain ⟨r, hsr⟩ := map_fst_ok hs
  rw [sliceParseChunkR_of_header hh] at hsr
  cases h0 : readSliceKeys flags num rest with
  | error e => rw [pbind_error h0] at hsr; simp at hsr
  | ok x =>
    obtain ⟨ks, r1⟩ := x
    rw [pbind_ok h0] at hsr
    simp only [pok, Except.ok.injEq, Prod.mk.injEq] at hsr
    rw [← hsr.1]
    exact readSliceKeys_flag_gating flags num rest ks r1 h0

/-- C4 witness: in the scenario-B slice (`flags = 3`), the single returned
key carries both optional sub-records. -/
theorem C4_slice_flag_uniform_witness :
    ((3 &&& 1 ≠ 0 → (SliceKey.slice9
        ⟨0, ⟨10, 20⟩, ⟨5, 5⟩, some ⟨1, 1, 2, 2⟩, some ⟨2, 2⟩⟩).isSome = true) ∧
      (3 &&& 1 = 0 → SliceKey.slice9
        ⟨0, ⟨10, 20⟩, ⟨5, 5⟩, some ⟨1, 1, 2, 2⟩, some ⟨2, 2⟩⟩ = none) ∧
      (3 &&& 2 ≠ 0 → (SliceKey.pivot
        ⟨0, ⟨10, 20⟩, ⟨5, 5⟩, some ⟨1, 1, 2, 2⟩, some ⟨2, 2⟩⟩).isSome = true) ∧
      (3 &&& 2 = 0 → SliceKey.pivot
        ⟨0, ⟨10, 20⟩, ⟨5, 5⟩, some ⟨1, 1, 2, 2⟩, some ⟨2, 2⟩⟩ = none)) :=
  @C4_slice_flag_uniform
    [1, 0, 0, 0, 3, 0, 0, 0, 0, 0, 0, 0, 0, 0,
      0, 0, 0, 0, 10, 0, 0, 0, 20, 0, 0, 0, 5, 0, 0, 0, 5, 0, 0, 0,
      1, 0, 0, 0, 1, 0, 0, 0, 2, 0, 0, 0, 2, 0, 0, 0,
      2, 0, 0, 0, 2, 0, 0, 0]
    1 3 []
    [0, 0, 0, 0, 10, 0, 0, 0, 20, 0, 0, 0, 5, 0, 0, 0, 5, 0, 0, 0,
      1, 0, 0, 0, 1, 0, 0, 0, 2, 0, 0, 0, 2, 0, 0, 0,
      2, 0, 0, 0, 2, 0, 0, 0]
    ⟨[], [⟨0, ⟨10, 20⟩, ⟨5, 5⟩, some ⟨1, 1, 2, 2⟩, some ⟨2, 2⟩⟩], none⟩
    (by rfl) (by rfl)
    ⟨0, ⟨10, 20⟩, ⟨5, 5⟩, some ⟨1, 1, 2, 2⟩, some ⟨2, 2⟩⟩ (by decide)

/-- C9: neither decoder requires the buffer to be fully consumed — appending
any byte sequence to a successfully decoded buffer leaves the decode result
unchanged (trailing unread bytes are silently ignored). -/
theorem C9_trailing_bytes_ignored (b s : List Nat) :
    (∀ p : ColorPalette, paletteParseChunk b = .ok p →
      paletteParseChunk (b ++ s) = .ok p) ∧
    (∀ sl : Slice, sliceParseChunk b = .ok sl →
      sliceParseChunk (b ++ s) = .ok sl) := by
  constructor
  · intro p h
    obtain ⟨r, hr⟩ := map_fst_ok h
    unfold paletteParseChunk
    rw [paletteParseChunkR_extends b s p r hr]
    rfl
  · intro sl h
    obtain ⟨r, hr⟩ := map_fst_ok h
    unfold sliceParseChunk
    rw [sliceParseChunkR_extends b s sl r hr]
    rfl

/-- C9 witness: appending a junk byte to a decodable palette chunk and to a
decodable slice chunk leaves both decode results unchanged. -/
theorem C9_trailing_bytes_ignored_witness :
    paletteParseChunk ([0, 0, 0, 0, 0, 0, 0, 0, 255, 255, 255, 255,
        0, 0, 0, 0, 0, 0, 0, 0] ++ [7]) = .ok ⟨[]⟩ ∧
    sliceParseChunk ([1, 0, 0, 0, 3, 0, 0, 0, 0, 0, 0, 0, 0, 0,
        0, 0, 0, 0, 10, 0, 0, 0, 20, 0, 0, 0, 5, 0, 0, 0, 5, 0, 0, 0,
        1, 0, 0, 0, 1, 0, 0, 0, 2, 0, 0, 0, 2, 0, 0, 0,
        2, 0, 0, 0, 2, 0, 0, 0] ++ [7]) =
      .ok ⟨[], [⟨0, ⟨10, 20⟩, ⟨5, 5⟩, some ⟨1, 1, 2, 2⟩, some ⟨2, 2⟩⟩], none⟩ :=
  ⟨(C9_trailing_bytes_ignored _ [7]).1 ⟨[]⟩ (by rfl),
    (C9_trailing_bytes_ignored _ [7]).2
      ⟨[], [⟨0, ⟨10, 20⟩, ⟨5, 5⟩, some ⟨1, 1, 2, 2⟩, some ⟨2, 2⟩⟩], none⟩
      (by rfl)⟩

/-- C6 counterexample: removing one byte at an offset the decoder never
reads does not make decoding fail.  This 21-byte palette chunk decodes
successfully, and so does the buffer obtained by removing its final byte
(offset 20), because the decoder ignores trailing unread bytes. -/
theorem C6_truncation_counterexample :
    paletteParseChunk [0, 0, 0, 0, 0, 0, 0, 0, 255, 255, 255, 255,
        0, 0, 0, 0, 0, 0, 0, 0, 9] = .ok ⟨[]⟩ ∧
    List.eraseIdx [0, 0, 0, 0, 0, 0, 0, 0, 255, 255, 255, 255,
        0, 0, 0, 0, 0, 0, 0, 0, 9] 20 =
      [0, 0, 0, 0, 0, 0, 0, 0, 255, 255, 255, 255,
        0, 0, 0, 0, 0, 0, 0, 0] ∧
    paletteParseChunk (List.eraseIdx [0, 0, 0, 0, 0, 0, 0, 0,
        255, 255, 255, 255, 0, 0, 0, 0, 0, 0, 0, 0, 9] 20) = .ok ⟨[]⟩ :=
  ⟨rfl, rfl, rfl⟩

/-- C6 (amended): when a chunk decode succeeds and consumes its entire
buffer (no unread trailing bytes), dropping the final byte makes the decode
fail; removing a byte the decoder never read can still succeed (see the
counterexample). -/
theorem C6_truncate_fully_consumed (b : List Nat) :
    (∀ p : ColorPalette, paletteParseChunkR b = .ok (p, []) →
      ∃ e, paletteParseChunk b.dropLast = .error e) ∧
    (∀ s : Slice, sliceParseChunkR b = .ok (s, []) →
      ∃ e, sliceParseChunk b.dropLast = .error e) := by
  constructor
  · intro p h
    have hb : b ≠ [] := by
      intro hbe
      rw [hbe] at h
      have : paletteParseChunkR [] = .error .endOfInput := rfl
      rw [this] at h
      exact Except.noConfusion h
    cases hx : paletteParseChunkR b.dropLast with
    | error e => exact ⟨e, by unfold paletteParseChunk; rw [hx]; rfl⟩
    | ok x =>
      obtain ⟨q, r⟩ := x
      exfalso
      have hext := paletteParseChunkR_extends b.dropLast [b.getLast hb] q r hx
      rw [List.dropLast_append_getLast hb] at hext
      rw [h] at hext
      simp at hext
  · intro s h
    have hb : b ≠ [] := by
      intro hbe
      rw [hbe] at h
      have : sliceParseChunkR [] = .error .endOfInput := rfl
      rw [this] at h
      exact Except.noConfusion h
    cases hx : sliceParseChunkR b.dropLast with
    | error e => exact ⟨e, by unfold sliceParseChunk; rw [hx]; rfl⟩
    | ok x =>
      obtain ⟨q, r⟩ := x
      exfalso
      have hext := sliceParseChunkR_extends b.dropLast [b.getLast hb] q r hx
      rw [List.dropLast_append_getLast hb] at hext
      rw [h] at hext
      simp at hext

/-- C6 (amended) witness: a palette chunk that is fully consumed (one entry,
26 bytes) and the fully consumed scenario-B slice chunk both fail to decode
after their final byte is dropped. -/
theorem C6_truncate_fully_consumed_witness :
    (∃ e, paletteParseChunk (List.dropLast [0, 0, 0, 0, 0, 0, 0, 0,
        0, 0, 0, 0, 0, 0, 0, 0, 0, 0, 0, 0, 0, 0, 1, 2, 3, 4]) =
      .error e) ∧
    (∃ e, sliceParseChunk (List.dropLast [1, 0, 0, 0, 3, 0, 0, 0,
        0, 0, 0, 0, 0, 0,
        0, 0, 0, 0, 10, 0, 0, 0, 20, 0, 0, 0, 5, 0, 0, 0, 5, 0, 0, 0,
        1, 0, 0, 0, 1, 0, 0, 0, 2, 0, 0, 0, 2, 0, 0, 0,
        2, 0, 0, 0, 2, 0, 0, 0]) = .error e) :=
  ⟨(C6_truncate_fully_consumed _).1 ⟨[(0, ⟨0, [1, 2, 3, 4], none⟩)]⟩ (by rfl),
    (C6_truncate_fully_consumed _).2
      ⟨[], [⟨0, ⟨10, 20⟩, ⟨5, 5⟩, some ⟨1, 1, 2, 2⟩, some ⟨2, 2⟩⟩], none⟩
      (by rfl)⟩

/-! ### Decode-of-encode lemmas for the primitives -/

theorem readWord_encode (n : Nat) (hn : n < 2 ^ 16) (rest : List Nat) :
    readWord (encodeWord n ++ rest) = .ok (n, rest) := by
  simp only [encodeWord, List.cons_append, List.nil_append, readWord, pbind,
    readByte, pok, Except.ok.injEq, Prod.mk.injEq, and_true, true_and]
  omega

theorem readDword_encode (n : Nat) (hn : n < 2 ^ 32) (rest : List Nat) :
    readDword (encodeDword n ++ rest) = .ok (n, rest) := by
  simp only [encodeDword, List.cons_append, List.nil_append, readDword, pbind,
    readByte, pok, Except.ok.injEq, Prod.mk.injEq, and_true, true_and]
  omega

theorem readLong_encode (z : Int) (h1 : -(2 ^ 31) ≤ z) (h2 : z < 2 ^ 31)
    (rest : List Nat) : readLong (encodeLong z ++ rest) = .ok (z, rest) := by
  have hm : (z % 2 ^ 32).toNat < 2 ^ 32 := by omega
  unfold encodeLong readLong
  rw [pbind_ok (readDword_encode _ hm rest)]
  by_cases hc : (z % 2 ^ 32).toNat < 2 ^ 31
  · rw [if_pos hc]
    simp only [pok, Except.ok.injEq, Prod.mk.injEq, and_true]
    omega
  · rw [if_neg hc]
    simp only [pok, Except.ok.injEq, Prod.mk.injEq, and_true]
    omega

theorem skipReserved_replicate (rest : List Nat) :
    skipReserved 8 (List.replicate 8 0 ++ rest) = .ok ((), rest) := by
  unfold skipReserved
  rw [if_pos (by simp)]
  rw [List.drop_append_of_le_length (by simp)]
  simp

theorem readBytes_encode (s rest : List Nat) :
    readBytes s.length (s ++ rest) = .ok (s, rest) := by
  unfold readBytes
  rw [if_pos (by simp)]
  rw [List.take_left, List.drop_left]

theorem readString_encode (s : List Nat) (h : WFName s) (rest : List Nat) :
    readString (encodeString s ++ rest) = .ok (s, rest) := by
  obtain ⟨hlen, _, hval⟩ := h
  unfold readString encodeString
  rw [List.append_assoc]
  rw [pbind_ok (readWord_encode s.length hlen (s ++ rest))]
  rw [pbind_ok (readBytes_encode s rest)]
  rw [if_pos hval]
  rfl

theorem bytePost_preadOpt {α : Type _} (c : Prop) [Decidable c] {p : ReadM α}
    {Q : α → Prop} (hp : BytePost p Q) :
    BytePost (preadOpt c p) (fun o => ∀ v, o = some v → Q v) := by
  unfold preadOpt
  refine bytePost_ite c (fun hc => ?_) (fun hc => ?_)
  · exact bytePost_pbind hp fun a ha =>
      bytePost_pok (fun v hv => by injection hv with hv; rw [← hv]; exact ha)
  · exact bytePost_pok (fun v hv => by simp at hv)

/-- On a byte buffer, one palette entry read produces the given id and a
well-formed entry. -/
theorem bytePost_readPaletteEntry (id : Nat) :
    BytePost (readPaletteEntry id) (fun e => e.id = id ∧ WFEntry e) := by
  unfold readPaletteEntry
  refine bytePost_pbind bytePost_readWord fun flags _ => ?_
  refine bytePost_pbind bytePost_readByte fun red hred => ?_
  refine bytePost_pbind bytePost_readByte fun green hgreen => ?_
  refine bytePost_pbind bytePost_readByte fun blue hblue => ?_
  refine bytePost_pbind bytePost_readByte fun alpha halpha => ?_
  refine bytePost_pbind (bytePost_preadOpt _ bytePost_readString)
    fun name hname => ?_
  refine bytePost_pok ⟨rfl, rfl, ?_, ?_⟩
  · intro x hx
    simp only [List.mem_cons, List.not_mem_nil, or_false] at hx
    rcases hx with rfl | rfl | rfl | rfl <;> assumption
  · intro s hs
    exact hname s hs

/-- A successful run of the palette entry loop on a byte buffer appends a
block of consecutive, well-formed bindings. -/
theorem readPaletteEntries_wf (first : Nat) :
    ∀ (n i : Nat) (acc : List (Nat × ColorPaletteEntry)) (bs : List Nat)
      (entries : List (Nat × ColorPaletteEntry)) (r : List Nat),
      readPaletteEntries first acc i n bs = .ok (entries, r) →
      ByteBuf bs →
      (∀ q ∈ acc, ∃ j, j < i ∧ q.1 = (j + first) % 2 ^ 32) →
      first + i + n ≤ 2 ^ 32 →
      ∃ tail, entries = acc ++ tail ∧ tail.length = n ∧
        WFEntriesFrom (first + i) tail := by
  intro n
  induction n with
  | zero =>
    intro i acc bs entries r h hb hacc hbound
    simp only [readPaletteEntries, pok, Except.ok.injEq, Prod.mk.injEq] at h
    exact ⟨[], by rw [← h.1]; simp, rfl, trivial⟩
  | succ m ih =>
    intro i acc bs entries r h hb hacc hbound
    unfold readPaletteEntries at h
    cases h0 : readPaletteEntry ((i + first) % 2 ^ 32) bs with
    | error e => rw [pbind_error h0] at h; simp at h
    | ok x =>
      obtain ⟨e, r1⟩ := x
      rw [pbind_ok h0] at h
      obtain ⟨⟨hid, hwfe⟩, hb1⟩ := bytePost_readPaletteEntry _ bs e r1 h0 hb
      have hfresh : ∀ q ∈ acc, q.1 ≠ (i + first) % 2 ^ 32 := by
        intro q hq
        obtain ⟨j, hj, hqe⟩ := hacc q hq
        rw [hqe]; omega
      rw [insertEntry_fresh hfresh] at h
      have hacc' : ∀ q ∈ acc ++ [((i + first) % 2 ^ 32, e)],
          ∃ j, j < i + 1 ∧ q.1 = (j + first) % 2 ^ 32 := by
        intro q hq
        rcases List.mem_append.mp hq with hq | hq
        · obtain ⟨j, hj, hqe⟩ := hacc q hq
          exact ⟨j, by omega, hqe⟩
        · rw [List.mem_singleton.mp hq]
          exact ⟨i, by omega, rfl⟩
      obtain ⟨tail, hte, htl, htwf⟩ :=
        ih (i + 1) _ r1 entries r h hb1 hacc' (by omega)
      refine ⟨((i + first) % 2 ^ 32, e) :: tail, ?_, by simp [htl], ?_⟩
      · rw [hte]; simp
      · show WFEntriesFrom (first + i) (((i + first) % 2 ^ 32, e) :: tail)
        refine ⟨by omega, by rw [hid]; omega, hwfe, ?_⟩
        have harith : first + i + 1 = first + (i + 1) := by omega
        rw [harith]
        exact htwf

/-- A successful palette parse implies the header reads succeeded. -/
theorem paletteHeader_of_ok {data : List Nat} {p : ColorPalette}
    {r : List Nat} (h : paletteParseChunkR data = .ok (p, r)) :
    ∃ first last rest, paletteHeader data = some (first, last, rest) := by
  unfold paletteParseChunkR at h
  unfold paletteHeader
  cases h0 : readDword data with
  | error e => rw [pbind_error h0] at h; simp at h
  | ok x0 =>
    obtain ⟨n0, r0⟩ := x0
    rw [pbind_ok h0] at h ⊢
    cases h1 : readDword r0 with
    | error e => rw [pbind_error h1] at h ⊢; simp at h
    | ok x1 =>
      obtain ⟨first0, r1⟩ := x1
      rw [pbind_ok h1] at h ⊢
      cases h2 : readDword r1 with
      | error e => rw [pbind_error h2] at h ⊢; simp at h
      | ok x2 =>
        obtain ⟨last0, r2⟩ := x2
        rw [pbind_ok h2] at h ⊢
        cases h3 : skipReserved 8 r2 with
        | error e => rw [pbind_error h3] at h ⊢; simp at h
        | ok x3 =>
          obtain ⟨u, r3⟩ := x3
          rw [pbind_ok h3] at h ⊢
          exact ⟨first0, last0, r3, rfl⟩

/-- Everything a successful palette decode from a byte buffer guarantees
about its result: the bindings form one consecutive well-formed block whose
length is a `u32` value and whose key range stays below `2 ^ 32`. -/
theorem paletteParse_wf {data : List Nat} {p : ColorPalette}
    (hb : ByteBuf data) (hp : paletteParseChunk data = .ok p) :
    ∃ first, WFEntriesFrom first p.entries ∧
      first + p.entries.length ≤ 2 ^ 32 ∧ p.entries.length < 2 ^ 32 := by
  obtain ⟨r, hpr⟩ := map_fst_ok hp
  obtain ⟨first, last, rest, hh⟩ := paletteHeader_of_ok hpr
  obtain ⟨hfirst, hlast, hbrest⟩ := paletteHeader_bounds hh hb
  rw [paletteParseChunkR_of_header hh] at hpr
  by_cases hc : last < first
  · rw [if_pos hc] at hpr; simp [perr] at hpr
  · rw [if_neg hc] at hpr
    cases h0 : readPaletteEntries first [] 0 ((last - first + 1) % 2 ^ 32) rest with
    | error e => rw [pbind_error h0] at hpr; simp at hpr
    | ok x =>
      obtain ⟨entries, r1⟩ := x
      rw [pbind_ok h0] at hpr
      simp only [pok, Except.ok.injEq, Prod.mk.injEq] at hpr
      obtain ⟨tail, hte, htl, htwf⟩ :=
        readPaletteEntries_wf first _ 0 [] rest entries r1 h0 hbrest
          (by simp) (by omega)
      rw [← hpr.1]
      refine ⟨first, ?_, ?_, ?_⟩
      · show WFEntriesFrom first entries
        rw [hte]
        simp only [List.nil_append]
        have : first + 0 = first := by omega
        rw [← this]
        exact htwf
      · show first + entries.length ≤ 2 ^ 32
        rw [hte]
        simp only [List.nil_append]
        omega
      · show entries.length < 2 ^ 32
        rw [hte]
        simp only [List.nil_append]
        omega

theorem readByte_cons (b : Nat) (rest : List Nat) :
    readByte (b :: rest) = .ok (b, rest) := rfl

theorem preadOpt_neg {α : Type _} {c : Prop} [Decidable c] (hc : ¬c)
    (p : ReadM α) (bs : List Nat) : preadOpt c p bs = .ok (none, bs) := by
  unfold preadOpt
  rw [if_neg hc]
  rfl

theorem preadOpt_pos {α : Type _} {c : Prop} [Decidable c] (hc : c)
    {p : ReadM α} {bs : List Nat} {a : α} {r : List Nat}
    (h : p bs = .ok (a, r)) : preadOpt c p bs = .ok (some a, r) := by
  unfold preadOpt
  rw [if_pos hc, pbind_ok h]
  rfl

/-- Decoding an encoded well-formed palette entry restores the entry. -/
theorem readPaletteEntry_encode (e : ColorPaletteEntry) (hwf : WFEntry e)
    (rest : List Nat) :
    readPaletteEntry e.id (encodePaletteEntry e ++ rest) = .ok (e, rest) := by
  obtain ⟨hlen, hbb, hname⟩ := hwf
  obtain ⟨id, rgba, name⟩ := e
  rcases rgba with _ | ⟨r, _ | ⟨g, _ | ⟨b, _ | ⟨a, _ | ⟨x, tl⟩⟩⟩⟩⟩ <;>
    simp only [List.length_cons, List.length_nil] at hlen <;> try omega
  cases name with
  | none =>
    show readPaletteEntry id ((encodeWord 0 ++ [r, g, b, a]) ++ rest) =
      .ok (⟨id, [r, g, b, a], none⟩, rest)
    unfold readPaletteEntry
    rw [List.append_assoc]
    rw [pbind_ok (readWord_encode 0 (by norm_num) ([r, g, b, a] ++ rest))]
    simp only [List.cons_append, List.nil_append]
    rw [pbind_ok (readByte_cons r _), pbind_ok (readByte_cons g _),
      pbind_ok (readByte_cons b _), pbind_ok (readByte_cons a _)]
    rw [pbind_ok (preadOpt_neg (by decide) readString rest)]
    rfl
  | some s =>
    show readPaletteEntry id ((encodeWord 1 ++ [r, g, b, a] ++
        encodeString s) ++ rest) = .ok (⟨id, [r, g, b, a], some s⟩, rest)
    unfold readPaletteEntry
    rw [List.append_assoc, List.append_assoc]
    rw [pbind_ok (readWord_encode 1 (by norm_num)
      ([r, g, b, a] ++ (encodeString s ++ rest)))]
    simp only [List.cons_append, List.nil_append]
    rw [pbind_ok (readByte_cons r _), pbind_ok (readByte_cons g _),
      pbind_ok (readByte_cons b _), pbind_ok (readByte_cons a _)]
    rw [pbind_ok (preadOpt_pos (by decide)
      (readString_encode s (hname s rfl) rest))]
    rfl

/-- Decoding the encoding of a consecutive well-formed block of bindings
restores the block. -/
theorem readPaletteEntries_encode (first0 : Nat) :
    ∀ (l : List (Nat × ColorPaletteEntry)) (i : Nat)
      (acc : List (Nat × ColorPaletteEntry)) (rest : List Nat),
      WFEntriesFrom (first0 + i) l →
      (∀ q ∈ acc, ∃ j, j < i ∧ q.1 = (j + first0) % 2 ^ 32) →
      first0 + i + l.length ≤ 2 ^ 32 →
      readPaletteEntries first0 acc i l.length
        (encodePaletteEntries l ++ rest) = .ok (acc ++ l, rest) := by
  intro l
  induction l with
  | nil =>
    intro i acc rest _ _ _
    simp [readPaletteEntries, encodePaletteEntries, pok]
  | cons hd tl ih =>
    intro i acc rest hwf hacc hbound
    obtain ⟨k', e⟩ := hd
    obtain ⟨hk, hid, hwfe, hwftl⟩ := hwf
    simp only [List.length_cons] at hbound
    show readPaletteEntries first0 acc i (tl.length + 1)
      ((encodePaletteEntry e ++ encodePaletteEntries tl) ++ rest) =
      .ok (acc ++ (k', e) :: tl, rest)
    unfold readPaletteEntries
    rw [List.append_assoc]
    have hidk : (i + first0) % 2 ^ 32 = e.id := by rw [hid]; omega
    rw [hidk]
    rw [pbind_ok (readPaletteEntry_encode e hwfe
      (encodePaletteEntries tl ++ rest))]
    have hfresh : ∀ q ∈ acc, q.1 ≠ e.id := by
      intro q hq
      obtain ⟨j, hj, hqe⟩ := hacc q hq
      rw [hqe, hid]
      omega
    rw [insertEntry_fresh hfresh]
    have hacc' : ∀ q ∈ acc ++ [(e.id, e)],
        ∃ j, j < i + 1 ∧ q.1 = (j + first0) % 2 ^ 32 := by
      intro q hq
      rcases List.mem_append.mp hq with hq | hq
      · obtain ⟨j, hj, hqe⟩ := hacc q hq
        exact ⟨j, by omega, hqe⟩
      · rw [List.mem_singleton.mp hq]
        refine ⟨i, by omega, ?_⟩
        rw [hid]
        omega
    have hrec := ih (i + 1) (acc ++ [(e.id, e)]) rest
      (by
        have harith : first0 + (i + 1) = first0 + i + 1 := by omega
        rw [harith]
        exact hwftl)
      hacc' (by omega)
    rw [hrec]
    have hke : (e.id, e) = (k', e) := by rw [hid, hk]
    rw [List.append_assoc] at *
    simp [hke]

/-- Decoding the section-6 encoding of a well-formed palette restores the
palette. -/
theorem paletteParse_encode (p : ColorPalette)
    (hwf : ∃ first, WFEntriesFrom first p.entries ∧
      first + p.entries.length ≤ 2 ^ 32 ∧ p.entries.length < 2 ^ 32) :
    paletteParseChunk (encodePalette p) = .ok p := by
  obtain ⟨first, hwfe, hbd1, hbd2⟩ := hwf
  obtain ⟨entries⟩ := p
  cases entries with
  | nil => rfl
  | cons hd tl =>
    obtain ⟨k, e0⟩ := hd
    obtain ⟨hk, hid0, hwfe0, hwftl⟩ := hwfe
    subst hk
    simp only [List.length_cons] at hbd1 hbd2 ⊢
    show paletteParseChunk
      (encodeDword ((tl.length + 1) % 2 ^ 32) ++ encodeDword k ++
        encodeDword (k + (tl.length + 1) - 1) ++ List.replicate 8 0 ++
        encodePaletteEntries ((k, e0) :: tl)) = .ok ⟨(k, e0) :: tl⟩
    unfold paletteParseChunk paletteParseChunkR
    simp only [List.append_assoc]
    rw [pbind_ok (readDword_encode ((tl.length + 1) % 2 ^ 32) (by omega) _)]
    rw [pbind_ok (readDword_encode k (by omega) _)]
    rw [pbind_ok (readDword_encode (k + (tl.length + 1) - 1)
      (by omega) _)]
    rw [pbind_ok (skipReserved_replicate _)]
    rw [if_neg (by omega)]
    have hcount : (k + (tl.length + 1) - 1 - k + 1) % 2 ^ 32 =
        tl.length + 1 := by omega
    rw [hcount]
    have hloop := readPaletteEntries_encode k ((k, e0) :: tl) 0 [] []
      (⟨rfl, hid0, hwfe0, hwftl⟩ :
        WFEntriesFrom (k + 0) ((k, e0) :: tl))
      (by simp) (by simp; omega)
    rw [List.append_nil] at hloop
    simp only [List.length_cons, List.nil_append] at hloop
    rw [pbind_ok hloop]
    rfl

theorem bytePost_preadOpt_full {α : Type _} (c : Prop) [Decidable c]
    {p : ReadM α} {Q : α → Prop} (hp : BytePost p Q) :
    BytePost (preadOpt c p) (fun o =>
      (c → o.isSome = true) ∧ (¬c → o = none) ∧
      ∀ v, o = some v → Q v) := by
  unfold preadOpt
  refine bytePost_ite c (fun hc => ?_) (fun hc => ?_)
  · refine bytePost_pbind hp fun a ha => bytePost_pok ?_
    exact ⟨fun _ => rfl, fun hnc => absurd hc hnc,
      fun v hv => by injection hv with hv; rw [← hv]; exact ha⟩
  · refine bytePost_pok ?_
    exact ⟨fun hcc => absurd hcc hc, fun _ => rfl, fun v hv => by simp at hv⟩

theorem bytePost_slice9_read : BytePost Slice9.read WFSlice9 := by
  unfold Slice9.read
  refine bytePost_pbind bytePost_readLong fun cx hcx => ?_
  refine bytePost_pbind bytePost_readLong fun cy hcy => ?_
  refine bytePost_pbind bytePost_readDword fun w hw => ?_
  refine bytePost_pbind bytePost_readDword fun h hh => ?_
  exact bytePost_pok ⟨hcx.1, hcx.2, hcy.1, hcy.2, hw, hh⟩

theorem bytePost_sliceOrigin_read :
    BytePost SliceOrigin.read (fun o =>
      -(2 ^ 31) ≤ o.x ∧ o.x < 2 ^ 31 ∧ -(2 ^ 31) ≤ o.y ∧ o.y < 2 ^ 31) := by
  unfold SliceOrigin.read
  refine bytePost_pbind bytePost_readLong fun x hx => ?_
  refine bytePost_pbind bytePost_readLong fun y hy => ?_
  exact bytePost_pok ⟨hx.1, hx.2, hy.1, hy.2⟩

theorem bytePost_sliceSize_read :
    BytePost SliceSize.read (fun z => z.width < 2 ^ 32 ∧ z.height < 2 ^ 32) := by
  unfold SliceSize.read
  refine bytePost_pbind bytePost_readDword fun w hw => ?_
  refine bytePost_pbind bytePost_readDword fun h hh => ?_
  exact bytePost_pok ⟨hw, hh⟩

theorem bytePost_slicePivot_read :
    BytePost SlicePivot.read (fun v =>
      -(2 ^ 31) ≤ v.x ∧ v.x < 2 ^ 31 ∧ -(2 ^ 31) ≤ v.y ∧ v.y < 2 ^ 31) := by
  unfold SlicePivot.read
  refine bytePost_pbind bytePost_readLong fun x hx => ?_
  refine bytePost_pbind bytePost_readLong fun y hy => ?_
  exact bytePost_pok ⟨hx.1, hx.2, hy.1, hy.2⟩

/-- On a byte buffer, one key read produces a well-formed key whose optional
sub-records are present exactly as the flags dictate. -/
theorem bytePost_sliceKey_read (flags : Nat) :
    BytePost (SliceKey.read flags)
      (fun k => WFSliceKey k ∧ KeyMatches flags k) := by
  unfold SliceKey.read
  refine bytePost_pbind bytePost_readDword fun ff hff => ?_
  refine bytePost_pbind bytePost_sliceOrigin_read fun o ho => ?_
  refine bytePost_pbind bytePost_sliceSize_read fun z hz => ?_
  refine bytePost_pbind (bytePost_preadOpt_full _ bytePost_slice9_read)
    fun s9 hs9 => ?_
  refine bytePost_pbind (bytePost_preadOpt_full _ bytePost_slicePivot_read)
    fun pv hpv => ?_
  refine bytePost_pok ⟨?_, ?_⟩
  · exact ⟨hff, ho.1, ho.2.1, ho.2.2.1, ho.2.2.2, hz.1, hz.2,
      fun v hv => hs9.2.2 v hv, fun v hv => hpv.2.2 v hv⟩
  · exact ⟨fun h => hs9.2.1 fun hne => hne h, fun h => hs9.1 h,
      fun h => hpv.2.1 fun hne => hne h, fun h => hpv.1 h⟩

/-- On a byte buffer, the key loop produces only well-formed, flag-matching
keys. -/
theorem bytePost_readSliceKeys (flags : Nat) :
    ∀ n : Nat, BytePost (readSliceKeys flags n)
      (fun ks => ∀ k ∈ ks, WFSliceKey k ∧ KeyMatches flags k) := by
  intro n
  induction n with
  | zero => exact bytePost_pok (by simp)
  | succ m ih =>
    unfold readSliceKeys
    refine bytePost_pbind (bytePost_sliceKey_read flags) fun k hk => ?_
    refine bytePost_pbind ih fun ks hks => ?_
    refine bytePost_pok ?_
    intro k' hk'
    rcases List.mem_cons.mp hk' with hk' | hk'
    · rw [hk']; exact hk
    · exact hks k' hk'

/-- A successful slice parse implies the header reads succeeded. -/
theorem sliceHeader_of_ok {data : List Nat} {s : Slice} {r : List Nat}
    (h : sliceParseChunkR data = .ok (s, r)) :
    ∃ num flags name rest, sliceHeader data = some (num, flags, name, rest) := by
  unfold sliceParseChunkR at h
  unfold sliceHeader
  cases h0 : readDword data with
  | error e => rw [pbind_error h0] at h; simp at h
  | ok x0 =>
    obtain ⟨num0, r0⟩ := x0
    rw [pbind_ok h0] at h ⊢
    cases h1 : readDword r0 with
    | error e => rw [pbind_error h1] at h ⊢; simp at h
    | ok x1 =>
      obtain ⟨flags0, r1⟩ := x1
      rw [pbind_ok h1] at h ⊢
      cases h2 : readDword r1 with
      | error e => rw [pbind_error h2] at h ⊢; simp at h
      | ok x2 =>
        obtain ⟨res0, r2⟩ := x2
        rw [pbind_ok h2] at h ⊢
        cases h3 : readString r2 with
        | error e => rw [pbind_error h3] at h ⊢; simp at h
        | ok x3 =>
          obtain ⟨name0, r3⟩ := x3
          rw [pbind_ok h3] at h ⊢
          exact ⟨num0, flags0, name0, r3, rfl⟩

/-- On a byte buffer the slice header's count is a `u32` value, its name is
well-formed, and the remaining buffer is still a byte buffer. -/
theorem sliceHeader_bounds {data : List Nat} {num flags : Nat}
    {name rest : List Nat}
    (hh : sliceHeader data = some (num, flags, name, rest))
    (hb : ByteBuf data) : num < 2 ^ 32 ∧ WFName name ∧ ByteBuf rest := by
  have hpost : BytePost
      (pbind readDword fun num_slice_keys =>
        pbind readDword fun flags =>
          pbind readDword fun _reserved =>
            pbind readString fun name =>
              pok (num_slice_keys, flags, name))
      (fun v => v.1 < 2 ^ 32 ∧ WFName v.2.2) :=
    bytePost_pbind bytePost_readDword fun n hn =>
      bytePost_pbind bytePost_readDword fun f hf =>
        bytePost_pbind bytePost_readDword fun l hl =>
          bytePost_pbind bytePost_readString fun nm hnm =>
            bytePost_pok ⟨hn, hnm⟩
  unfold sliceHeader at hh
  cases hsc : (pbind readDword fun num_slice_keys =>
      pbind readDword fun flags =>
        pbind readDword fun _reserved =>
          pbind readString fun name =>
            pok (num_slice_keys, flags, name)) data with
  | error e => rw [hsc] at hh; simp at hh
  | ok v =>
    obtain ⟨⟨n, f, nm⟩, r⟩ := v
    rw [hsc] at hh
    simp only [Option.some.injEq, Prod.mk.injEq] at hh
    obtain ⟨⟨hn32, hnm⟩, hbr⟩ := hpost data (n, f, nm) r hsc hb
    obtain ⟨hn, hf, hnme, hr⟩ := hh
    refine ⟨?_, ?_, ?_⟩
    · rw [← hn]; exact hn32
    · rw [← hnme]; exact hnm
    · rw [← hr]; exact hbr

/-- Everything a successful slice decode from a byte buffer guarantees
about its result: well-formed name, `u32` key count, no user data, and keys
uniformly matching some flags value. -/
theorem sliceParse_wf {data : List Nat} {s : Slice} (hb : ByteBuf data)
    (hs : sliceParseChunk data = .ok s) :
    WFName s.name ∧ s.keys.length < 2 ^ 32 ∧ s.user_data = none ∧
      ∃ flags, ∀ k ∈ s.keys, WFSliceKey k ∧ KeyMatches flags k := by
  obtain ⟨r, hsr⟩ := map_fst_ok hs
  obtain ⟨num, flags, name, rest, hh⟩ := sliceHeader_of_ok hsr
  obtain ⟨hnum, hname, hbrest⟩ := sliceHeader_bounds hh hb
  rw [sliceParseChunkR_of_header hh] at hsr
  cases h0 : readSliceKeys flags num rest with
  | error e => rw [pbind_error h0] at hsr; simp at hsr
  | ok x =>
    obtain ⟨ks, r1⟩ := x
    rw [pbind_ok h0] at hsr
    simp only [pok, Except.ok.injEq, Prod.mk.injEq] at hsr
    obtain ⟨hkwf, _⟩ := bytePost_readSliceKeys flags num rest ks r1 h0 hbrest
    have hkl := readSliceKeys_length flags num rest ks r1 h0
    rw [← hsr.1]
    refine ⟨hname, ?_, rfl, flags, hkwf⟩
    show ks.length < 2 ^ 32
    have hkl' : ks.length = num := hkl
    omega

theorem sliceOrigin_read_encode (x y : Int) (hx1 : -(2 ^ 31) ≤ x)
    (hx2 : x < 2 ^ 31) (hy1 : -(2 ^ 31) ≤ y) (hy2 : y < 2 ^ 31)
    (rest : List Nat) :
    SliceOrigin.read (encodeLong x ++ (encodeLong y ++ rest)) =
      .ok (⟨x, y⟩, rest) := by
  unfold SliceOrigin.read
  rw [pbind_ok (readLong_encode x hx1 hx2 _),
    pbind_ok (readLong_encode y hy1 hy2 _)]
  rfl

theorem sliceSize_read_encode (w h : Nat) (hw : w < 2 ^ 32) (hh : h < 2 ^ 32)
    (rest : List Nat) :
    SliceSize.read (encodeDword w ++ (encodeDword h ++ rest)) =
      .ok (⟨w, h⟩, rest) := by
  unfold SliceSize.read
  rw [pbind_ok (readDword_encode w hw _), pbind_ok (readDword_encode h hh _)]
  rfl

theorem slicePivot_read_encode (x y : Int) (hx1 : -(2 ^ 31) ≤ x)
    (hx2 : x < 2 ^ 31) (hy1 : -(2 ^ 31) ≤ y) (hy2 : y < 2 ^ 31)
    (rest : List Nat) :
    SlicePivot.read (encodeLong x ++ (encodeLong y ++ rest)) =
      .ok (⟨x, y⟩, rest) := by
  unfold SlicePivot.read
  rw [pbind_ok (readLong_encode x hx1 hx2 _),
    pbind_ok (readLong_encode y hy1 hy2 _)]
  rfl

theorem slice9_read_encode (v : Slice9) (hwf : WFSlice9 v) (rest : List Nat) :
    Slice9.read (encodeSlice9 v ++ rest) = .ok (v, rest) := by
  obtain ⟨cx, cy, w, h⟩ := v
  obtain ⟨h1, h2, h3, h4, h5, h6⟩ := hwf
  unfold Slice9.read encodeSlice9
  simp only [List.append_assoc]
  rw [pbind_ok (readLong_encode cx h1 h2 _),
    pbind_ok (readLong_encode cy h3 h4 _),
    pbind_ok (readDword_encode w h5 _), pbind_ok (readDword_encode h h6 _)]
  rfl

/-- Decoding an encoded well-formed key under matching flags restores the
key. -/
theorem sliceKey_read_encode (flags : Nat) (k : SliceKey)
    (hwf : WFSliceKey k) (hm : KeyMatches flags k) (rest : List Nat) :
    SliceKey.read flags (encodeSliceKey k ++ rest) = .ok (k, rest) := by
  obtain ⟨ff, o, z, s9, pv⟩ := k
  obtain ⟨ox, oy⟩ := o
  obtain ⟨w, h⟩ := z
  obtain ⟨hb1, hb2, hb3, hb4, hb5, hb6, hb7, hb8, hb9⟩ := hwf
  obtain ⟨hm1, hm2, hm3, hm4⟩ := hm
  cases s9 with
  | none =>
    have hc1 : ¬(flags &&& 1 ≠ 0) := fun hne => by simpa using hm2 hne
    cases pv with
    | none =>
      have hc2 : ¬(flags &&& 2 ≠ 0) := fun hne => by simpa using hm4 hne
      show SliceKey.read flags ((encodeDword ff ++ encodeLong ox ++
          encodeLong oy ++ encodeDword w ++ encodeDword h ++ [] ++ []) ++
          rest) = .ok (⟨ff, ⟨ox, oy⟩, ⟨w, h⟩, none, none⟩, rest)
      unfold SliceKey.read
      simp only [List.append_assoc, List.append_nil, List.nil_append]
      rw [pbind_ok (readDword_encode ff hb1 _)]
      rw [pbind_ok (sliceOrigin_read_encode ox oy hb2 hb3 hb4 hb5 _)]
      rw [pbind_ok (sliceSize_read_encode w h hb6 hb7 _)]
      rw [pbind_ok (preadOpt_neg hc1 _ _), pbind_ok (preadOpt_neg hc2 _ _)]
      rfl
    | some pvv =>
      obtain ⟨px, py⟩ := pvv
      have hc2 : flags &&& 2 ≠ 0 := by
        intro h0
        exact absurd (hm3 h0) (by simp)
      obtain ⟨hp1, hp2, hp3, hp4⟩ := hb9 ⟨px, py⟩ rfl
      show SliceKey.read flags ((encodeDword ff ++ encodeLong ox ++
          encodeLong oy ++ encodeDword w ++ encodeDword h ++ [] ++
          (encodeLong px ++ encodeLong py)) ++ rest) =
        .ok (⟨ff, ⟨ox, oy⟩, ⟨w, h⟩, none, some ⟨px, py⟩⟩, rest)
      unfold SliceKey.read
      simp only [List.append_assoc, List.append_nil, List.nil_append]
      rw [pbind_ok (readDword_encode ff hb1 _)]
      rw [pbind_ok (sliceOrigin_read_encode ox oy hb2 hb3 hb4 hb5 _)]
      rw [pbind_ok (sliceSize_read_encode w h hb6 hb7 _)]
      rw [pbind_ok (preadOpt_neg hc1 _ _)]
      rw [pbind_ok (preadOpt_pos hc2
        (slicePivot_read_encode px py hp1 hp2 hp3 hp4 rest))]
      rfl
  | some s9v =>
    have hc1 : flags &&& 1 ≠ 0 := by
      intro h0
      exact absurd (hm1 h0) (by simp)
    have hw9 : WFSlice9 s9v := hb8 s9v rfl
    cases pv with
    | none =>
      have hc2 : ¬(flags &&& 2 ≠ 0) := fun hne => by simpa using hm4 hne
      show SliceKey.read flags ((encodeDword ff ++ encodeLong ox ++
          encodeLong oy ++ encodeDword w ++ encodeDword h ++
          encodeSlice9 s9v ++ []) ++ rest) =
        .ok (⟨ff, ⟨ox, oy⟩, ⟨w, h⟩, some s9v, none⟩, rest)
      unfold SliceKey.read
      simp only [List.append_assoc, List.append_nil, List.nil_append]
      rw [pbind_ok (readDword_encode ff hb1 _)]
      rw [pbind_ok (sliceOrigin_read_encode ox oy hb2 hb3 hb4 hb5 _)]
      rw [pbind_ok (sliceSize_read_encode w h hb6 hb7 _)]
      rw [pbind_ok (preadOpt_pos hc1 (slice9_read_encode s9v hw9 rest))]
      rw [pbind_ok (preadOpt_neg hc2 _ _)]
      rfl
    | some pvv =>
      obtain ⟨px, py⟩ := pvv
      have hc2 : flags &&& 2 ≠ 0 := by
        intro h0
        exact absurd (hm3 h0) (by simp)
      obtain ⟨hp1, hp2, hp3, hp4⟩ := hb9 ⟨px, py⟩ rfl
      show SliceKey.read flags ((encodeDword ff ++ encodeLong ox ++
          encodeLong oy ++ encodeDword w ++ encodeDword h ++
          encodeSlice9 s9v ++ (encodeLong px ++ encodeLong py)) ++ rest) =
        .ok (⟨ff, ⟨ox, oy⟩, ⟨w, h⟩, some s9v, some ⟨px, py⟩⟩, rest)
      unfold SliceKey.read
      simp only [List.append_assoc, List.append_nil, List.nil_append]
      rw [pbind_ok (readDword_encode ff hb1 _)]
      rw [pbind_ok (sliceOrigin_read_encode ox oy hb2 hb3 hb4 hb5 _)]
      rw [pbind_ok (sliceSize_read_encode w h hb6 hb7 _)]
      rw [pbind_ok (preadOpt_pos hc1 (slice9_read_encode s9v hw9 _))]
      rw [pbind_ok (preadOpt_pos hc2
        (slicePivot_read_encode px py hp1 hp2 hp3 hp4 rest))]
      rfl

/-- Decoding the encoding of a list of well-formed, flag-matching keys
restores the list. -/
theorem readSliceKeys_encode (flags : Nat) :
    ∀ (l : List SliceKey) (rest : List Nat),
      (∀ k ∈ l, WFSliceKey k ∧ KeyMatches flags k) →
      readSliceKeys flags l.length (encodeSliceKeys l ++ rest) =
        .ok (l, rest) := by
  intro l
  induction l with
  | nil => intro rest _; simp [readSliceKeys, encodeSliceKeys, pok]
  | cons k tl ih =>
    intro rest hall
    have hk := hall k (List.mem_cons_self k tl)
    show readSliceKeys flags (tl.length + 1)
      ((encodeSliceKey k ++ encodeSliceKeys tl) ++ rest) = .ok (k :: tl, rest)
    unfold readSliceKeys
    rw [List.append_assoc]
    rw [pbind_ok (sliceKey_read_encode flags k hk.1 hk.2 _)]
    rw [pbind_ok (ih rest (fun k' hk' => hall k' (List.mem_cons_of_mem k hk')))]
    rfl

theorem sliceFlags_lt (s : Slice) : sliceFlags s < 2 ^ 32 := by
  rcases s with ⟨name, keys, ud⟩
  cases keys with
  | nil => simp only [sliceFlags]; norm_num
  | cons k tl =>
    simp only [sliceFlags]
    split_ifs <;> norm_num

/-- Keys that uniformly match some flags value also match the flags value
reconstructed from the head key's sub-record presence. -/
theorem keyMatches_sliceFlags {flags0 : Nat} {s : Slice}
    (hkeys : ∀ k ∈ s.keys, KeyMatches flags0 k) :
    ∀ k ∈ s.keys, KeyMatches (sliceFlags s) k := by
  intro k hkk
  obtain ⟨name, keys, ud⟩ := s
  cases keys with
  | nil => simp at hkk
  | cons khead tl =>
    have hhead := hkeys khead (List.mem_cons_self _ _)
    have hkm := hkeys k hkk
    by_cases h1 : flags0 &&& 1 = 0
    · have h9h : khead.slice9 = none := hhead.1 h1
      have h9k : k.slice9 = none := hkm.1 h1
      by_cases h2 : flags0 &&& 2 = 0
      · have hph : khead.pivot = none := hhead.2.2.1 h2
        have hpk : k.pivot = none := hkm.2.2.1 h2
        have hsf : sliceFlags ⟨name, khead :: tl, ud⟩ = 0 := by
          simp only [sliceFlags]
          simp [h9h, hph]
        rw [hsf]
        exact ⟨fun _ => h9k, fun hne => absurd (by decide) hne,
          fun _ => hpk, fun hne => absurd (by decide) hne⟩
      · have hphs : khead.pivot.isSome = true := hhead.2.2.2 h2
        have hpks : k.pivot.isSome = true := hkm.2.2.2 h2
        have hsf : sliceFlags ⟨name, khead :: tl, ud⟩ = 2 := by
          simp only [sliceFlags]
          simp [h9h, hphs]
        rw [hsf]
        exact ⟨fun _ => h9k, fun hne => absurd (by decide) hne,
          fun h => absurd h (by decide), fun _ => hpks⟩
    · have h9hs : khead.slice9.isSome = true := hhead.2.1 h1
      have h9ks : k.slice9.isSome = true := hkm.2.1 h1
      by_cases h2 : flags0 &&& 2 = 0
      · have hph : khead.pivot = none := hhead.2.2.1 h2
        have hpk : k.pivot = none := hkm.2.2.1 h2
        have hsf : sliceFlags ⟨name, khead :: tl, ud⟩ = 1 := by
          simp only [sliceFlags]
          simp [h9hs, hph]
        rw [hsf]
        exact ⟨fun h => absurd h (by decide), fun _ => h9ks,
          fun _ => hpk, fun hne => absurd (by decide) hne⟩
      · have hphs : khead.pivot.isSome = true := hhead.2.2.2 h2
        have hpks : k.pivot.isSome = true := hkm.2.2.2 h2
        have hsf : sliceFlags ⟨name, khead :: tl, ud⟩ = 3 := by
          simp only [sliceFlags]
          simp [h9hs, hphs]
        rw [hsf]
        exact ⟨fun h => absurd h (by decide), fun _ => h9ks,
          fun h => absurd h (by decide), fun _ => hpks⟩

/-- Decoding the section-6 encoding of a well-formed slice restores the
slice. -/
theorem sliceParse_encode (s : Slice) (hname : WFName s.name)
    (hlen : s.keys.length < 2 ^ 32) (hud : s.user_data = none)
    (hkeys : ∀ k ∈ s.keys, WFSliceKey k ∧ KeyMatches (sliceFlags s) k) :
    sliceParseChunk (encodeSlice s) = .ok s := by
  obtain ⟨name, keys, ud⟩ := s
  have hud' : ud = none := hud
  subst hud'
  unfold sliceParseChunk sliceParseChunkR encodeSlice
  simp only [List.append_assoc]
  rw [pbind_ok (readDword_encode (keys.length % 2 ^ 32) (by omega) _)]
  rw [pbind_ok (readDword_encode (sliceFlags ⟨name, keys, none⟩)
    (sliceFlags_lt _) _)]
  rw [pbind_ok (readDword_encode 0 (by norm_num) _)]
  rw [pbind_ok (readString_encode name hname _)]
  rw [Nat.mod_eq_of_lt hlen]
  have hloop := readSliceKeys_encode (sliceFlags ⟨name, keys, none⟩) keys []
    hkeys
  rw [List.append_nil] at hloop
  rw [pbind_ok hloop]
  rfl

/-- C5: re-encoding any decoded `ColorPalette` or `Slice` with the section-6
byte layout (little-endian integers, 16-bit-length-prefixed strings, flag
bits set exactly when the optional field is present) and decoding the result
restores the original value exactly. -/
theorem C5_roundtrip :
    (∀ (b : List Nat) (p : ColorPalette), ByteBuf b →
      paletteParseChunk b = .ok p →
      paletteParseChunk (encodePalette p) = .ok p) ∧
    (∀ (b : List Nat) (s : Slice), ByteBuf b →
      sliceParseChunk b = .ok s →
      sliceParseChunk (encodeSlice s) = .ok s) := by
  constructor
  · intro b p hb hp
    exact paletteParse_encode p (paletteParse_wf hb hp)
  · intro b s hb hs
    obtain ⟨hn, hl, hud, flags0, hk⟩ := sliceParse_wf hb hs
    refine sliceParse_encode s hn hl hud ?_
    intro k hkk
    exact ⟨(hk k hkk).1,
      keyMatches_sliceFlags (fun k' hk' => (hk k' hk').2) k hkk⟩

/-- C5 witness: the scenario-A palette and the scenario-B slice decode from
their byte buffers; re-encoding each and decoding again restores the same
values. -/
theorem C5_roundtrip_witness :
    paletteParseChunk (encodePalette
        ⟨[(0, ⟨0, [255, 0, 0, 255], none⟩),
          (1, ⟨1, [0, 255, 0, 255], some [71, 114, 97, 115, 115]⟩)]⟩) =
      .ok ⟨[(0, ⟨0, [255, 0, 0, 255], none⟩),
        (1, ⟨1, [0, 255, 0, 255], some [71, 114, 97, 115, 115]⟩)]⟩ ∧
    sliceParseChunk (encodeSlice
        ⟨[], [⟨0, ⟨10, 20⟩, ⟨5, 5⟩, some ⟨1, 1, 2, 2⟩, some ⟨2, 2⟩⟩], none⟩) =
      .ok ⟨[], [⟨0, ⟨10, 20⟩, ⟨5, 5⟩, some ⟨1, 1, 2, 2⟩, some ⟨2, 2⟩⟩], none⟩ :=
  ⟨C5_roundtrip.1
      [0, 0, 0, 0, 0, 0, 0, 0, 1, 0, 0, 0, 0, 0, 0, 0, 0, 0, 0, 0,
        0, 0, 255, 0, 0, 255,
        1, 0, 0, 255, 0, 255, 5, 0, 71, 114, 97, 115, 115]
      ⟨[(0, ⟨0, [255, 0, 0, 255], none⟩),
        (1, ⟨1, [0, 255, 0, 255], some [71, 114, 97, 115, 115]⟩)]⟩
      (by decide) (by rfl),
    C5_roundtrip.2
      [1, 0, 0, 0, 3, 0, 0, 0, 0, 0, 0, 0, 0, 0,
        0, 0, 0, 0, 10, 0, 0, 0, 20, 0, 0, 0, 5, 0, 0, 0, 5, 0, 0, 0,
        1, 0, 0, 0, 1, 0, 0, 0, 2, 0, 0, 0, 2, 0, 0, 0,
        2, 0, 0, 0, 2, 0, 0, 0]
      ⟨[], [⟨0, ⟨10, 20⟩, ⟨5, 5⟩, some ⟨1, 1, 2, 2⟩, some ⟨2, 2⟩⟩], none⟩
      (by decide) (by rfl)⟩
